import Mathlib

/-!
Verification of the extended transaction format (TEF) codec: `Serialize`,
`Deserialize` and `DeserializeTxID`, embedded shallowly over byte lists.

Bytes are `Fin 256`.  The primitive field codec (fixed-width little-endian
integers, Bitcoin-style variable-length integers, and the standard input and
output records) is the external collaborator assumed correct by the codec; it
is embedded concretely below.  Multi-byte integers are represented as `Nat`
with explicit truncation modulo the word size where the wire writes them.

Every parser returns `Option (value × consumed × rest)`: the parsed value, the
bytes it consumed (in order), and the remaining stream.  The `consumed`
component models the tee reader of `DeserializeTxID`, which feeds every byte
read through it into the running digest.  `DeserializeTxID` is embedded as the
function producing the exact byte sequence fed into the digest (the preimage of
the double-SHA256 identifier) together with the remaining stream: two streams
get the same 32-byte identifier exactly when their digest preimages coincide,
so all identifier claims are settled at the preimage level.
-/

set_option maxHeartbeats 1000000

namespace Tef

abbrev Byte := Fin 256

def byte (n : Nat) : Byte := ⟨n % 256, Nat.mod_lt _ (by norm_num)⟩

/-- Little-endian 2-byte encoding of `n % 2^16`. -/
def putU16 (n : Nat) : List Byte := [byte n, byte (n / 256)]

/-- Little-endian 4-byte encoding of `n % 2^32` (`binary.Write` with `endian`). -/
def putU32 (n : Nat) : List Byte :=
  [byte n, byte (n / 256), byte (n / 65536), byte (n / 16777216)]

/-- Little-endian 8-byte encoding of `n % 2^64`. -/
def putU64 (n : Nat) : List Byte :=
  [byte n, byte (n / 256), byte (n / 65536), byte (n / 16777216),
   byte (n / 4294967296), byte (n / 1099511627776),
   byte (n / 281474976710656), byte (n / 72057594037927936)]

/-- Read 2 bytes little-endian: value, consumed bytes, rest. -/
def readU16 (s : List Byte) : Option (Nat × List Byte × List Byte) :=
  match s with
  | b0 :: b1 :: rest => some (b0.val + 256 * b1.val, [b0, b1], rest)
  | _ => none

/-- Read 4 bytes little-endian (`binary.Read` of a 32-bit value). -/
def readU32 (s : List Byte) : Option (Nat × List Byte × List Byte) :=
  match s with
  | b0 :: b1 :: b2 :: b3 :: rest =>
      some (b0.val + 256 * b1.val + 65536 * b2.val + 16777216 * b3.val,
        [b0, b1, b2, b3], rest)
  | _ => none

/-- Read 8 bytes little-endian (`binary.Read` of a 64-bit value). -/
def readU64 (s : List Byte) : Option (Nat × List Byte × List Byte) :=
  match s with
  | b0 :: b1 :: b2 :: b3 :: b4 :: b5 :: b6 :: b7 :: rest =>
      some (b0.val + 256 * b1.val + 65536 * b2.val + 16777216 * b3.val +
        4294967296 * b4.val + 1099511627776 * b5.val +
        281474976710656 * b6.val + 72057594037927936 * b7.val,
        [b0, b1, b2, b3, b4, b5, b6, b7], rest)
  | _ => none

/-- `wire.WriteVarInt`: Bitcoin compact-size encoding. -/
def writeVarInt (n : Nat) : List Byte :=
  if n < 253 then [byte n]
  else if n ≤ 65535 then byte 253 :: putU16 n
  else if n ≤ 4294967295 then byte 254 :: putU32 n
  else byte 255 :: putU64 n

/-- `wire.ReadVarInt`: Bitcoin compact-size decoding, rejecting non-canonical
encodings. -/
def readVarInt (s : List Byte) : Option (Nat × List Byte × List Byte) :=
  match s with
  | [] => none
  | d :: rest =>
    if d.val = 255 then
      match readU64 rest with
      | some (v, c, r) => if 4294967296 ≤ v then some (v, d :: c, r) else none
      | none => none
    else if d.val = 254 then
      match readU32 rest with
      | some (v, c, r) => if 65536 ≤ v then some (v, d :: c, r) else none
      | none => none
    else if d.val = 253 then
      match readU16 rest with
      | some (v, c, r) => if 253 ≤ v then some (v, d :: c, r) else none
      | none => none
    else some (d.val, [d], rest)

/-- Read a fixed-size chunk of `n` bytes. -/
def readBytes (n : Nat) (s : List Byte) : Option (List Byte × List Byte × List Byte) :=
  if n ≤ s.length then some (s.take n, s.take n, s.drop n) else none

/-- `wire.TxIn`: previous-output reference (32-byte hash plus 32-bit index),
unlocking script, 32-bit sequence number. -/
structure TxIn where
  prevHash : List Byte
  prevIndex : Nat
  unlockingScript : List Byte
  sequence : Nat
deriving DecidableEq, Repr

/-- `wire.TxOut`: 64-bit value and locking script. -/
structure TxOut where
  value : Nat
  lockingScript : List Byte
deriving DecidableEq, Repr

/-- `bitcoin.Hash32.IsZero` on the previous-output hash: a coinbase input. -/
def TxIn.isCoinbase (i : TxIn) : Bool := i.prevHash.all (fun b => b = byte 0)

/-- `wire.TxIn.Serialize`: hash, index, length-prefixed script, sequence. -/
def TxIn.serialize (i : TxIn) : List Byte :=
  i.prevHash ++ putU32 i.prevIndex ++ writeVarInt i.unlockingScript.length ++
    i.unlockingScript ++ putU32 i.sequence

/-- `wire.TxIn.Deserialize`. -/
def TxIn.deserialize (s : List Byte) : Option (TxIn × List Byte × List Byte) :=
  match readBytes 32 s with
  | none => none
  | some (hash, c1, s1) =>
  match readU32 s1 with
  | none => none
  | some (idx, c2, s2) =>
  match readVarInt s2 with
  | none => none
  | some (len, c3, s3) =>
  match readBytes len s3 with
  | none => none
  | some (script, c4, s4) =>
  match readU32 s4 with
  | none => none
  | some (seq, c5, s5) =>
    some (⟨hash, idx, script, seq⟩, c1 ++ c2 ++ c3 ++ c4 ++ c5, s5)

/-- `wire.TxOut.Serialize`: value, length-prefixed locking script. -/
def TxOut.serialize (o : TxOut) : List Byte :=
  putU64 o.value ++ writeVarInt o.lockingScript.length ++ o.lockingScript

/-- `wire.TxOut.Deserialize`. -/
def TxOut.deserialize (s : List Byte) : Option (TxOut × List Byte × List Byte) :=
  match readU64 s with
  | none => none
  | some (v, c1, s1) =>
  match readVarInt s1 with
  | none => none
  | some (len, c2, s2) =>
  match readBytes len s2 with
  | none => none
  | some (script, c3, s3) => some (⟨v, script⟩, c1 ++ c2 ++ c3, s3)

/-- `wire.MsgTx`. -/
structure MsgTx where
  version : Nat
  txIn : List TxIn
  txOut : List TxOut
  lockTime : Nat
deriving DecidableEq, Repr

/-- `wire.MsgTx.Serialize`, the plain (non-extended) wire format; the
transaction identifier is the double SHA-256 of exactly these bytes. -/
def MsgTx.serialize (tx : MsgTx) : List Byte :=
  putU32 tx.version ++ writeVarInt tx.txIn.length ++
    (tx.txIn.map TxIn.serialize).flatten ++ writeVarInt tx.txOut.length ++
    (tx.txOut.map TxOut.serialize).flatten ++ putU32 tx.lockTime

/-- `expanded_tx.Output`: the spent-output data carried per input. -/
structure Output where
  value : Nat
  lockingScript : List Byte
deriving DecidableEq, Repr

/-- `expanded_tx.ExpandedTx`: a transaction plus its aligned spent outputs. -/
structure ExpandedTx where
  tx : MsgTx
  spentOutputs : List Output
deriving DecidableEq, Repr

/-- `expanded_tx.TransactionWithOutputs`: the encoder input, a transaction
together with the spent-output resolver `InputOutput` keyed by input index. -/
structure TransactionWithOutputs where
  msgTx : MsgTx
  inputOutput : Nat → Option TxOut

/-- `MarkerLockTime = uint32(0xef000000)`. -/
def MarkerLockTime : Nat := 4009754624

/-- `Marker = []byte{0x00, 0x00, 0x00, 0x00, 0x00, 0xef}`. -/
def Marker : List Byte := [byte 0, byte 0, byte 0, byte 0, byte 0, byte 239]

/-- `SerializeExtendedInput`: an input's standard record immediately followed
by the standard record of the output it spends. -/
def serializeExtendedInput (input : TxIn) (output : TxOut) : List Byte :=
  TxIn.serialize input ++ TxOut.serialize output

/-- The input loop of `Serialize` (source lines 45-62), starting at input
index `idx`: for a coinbase input it first writes an extended input record
with a zero-valued `wire.TxOut{}`, then unconditionally resolves the spent
output and writes an extended input record with it; a failed resolution
aborts with an error (`none`). -/
def serializeInputs (resolver : Nat → Option TxOut) : Nat → List TxIn → Option (List Byte)
  | _, [] => some []
  | idx, input :: rest =>
    let pre := if input.isCoinbase then serializeExtendedInput input ⟨0, []⟩ else []
    match resolver idx with
    | none => none
    | some inputOutput =>
      match serializeInputs resolver (idx + 1) rest with
      | none => none
      | some tail => some (pre ++ serializeExtendedInput input inputOutput ++ tail)

/-- `Serialize`: version, the 6-byte marker when there is at least one input,
input count, the extended input records, output count, outputs, lock time. -/
def Serialize (tx : TransactionWithOutputs) : Option (List Byte) :=
  let msgTx := tx.msgTx
  let inputCount := msgTx.txIn.length
  match serializeInputs tx.inputOutput 0 msgTx.txIn with
  | none => none
  | some ins =>
    some (putU32 msgTx.version ++
      (if inputCount > 0 then Marker else []) ++
      writeVarInt inputCount ++
      ins ++
      writeVarInt msgTx.txOut.length ++
      (msgTx.txOut.map TxOut.serialize).flatten ++
      putU32 msgTx.lockTime)

/-- Read `n` standard input records. -/
def readTxIns : Nat → List Byte → Option (List TxIn × List Byte × List Byte)
  | 0, s => some ([], [], s)
  | n + 1, s =>
    match TxIn.deserialize s with
    | none => none
    | some (i, c1, s1) =>
      match readTxIns n s1 with
      | none => none
      | some (l, c2, s2) => some (i :: l, c1 ++ c2, s2)

/-- Read `n` standard output records. -/
def readTxOuts : Nat → List Byte → Option (List TxOut × List Byte × List Byte)
  | 0, s => some ([], [], s)
  | n + 1, s =>
    match TxOut.deserialize s with
    | none => none
    | some (o, c1, s1) =>
      match readTxOuts n s1 with
      | none => none
      | some (l, c2, s2) => some (o :: l, c1 ++ c2, s2)

/-- The extended input loop of `Deserialize` (source lines 187-201): `n` times
`DeserializeExtendedOutput` (one standard input record immediately followed by
one standard output record), collecting the inputs and, per input, the spent
output converted to `expanded_tx.Output`. -/
def readExtendedPairs : Nat → List Byte → Option (List TxIn × List Output × List Byte)
  | 0, s => some ([], [], s)
  | n + 1, s =>
    match TxIn.deserialize s with
    | none => none
    | some (i, _, s1) =>
      match TxOut.deserialize s1 with
      | none => none
      | some (o, _, s2) =>
        match readExtendedPairs n s2 with
        | none => none
        | some (l, outs, s3) => some (i :: l, Output.mk o.value o.lockingScript :: outs, s3)

/-- `Deserialize`: the four-branch forward disambiguation. -/
def Deserialize (s : List Byte) : Option (ExpandedTx × List Byte) :=
  match readU32 s with
  | none => none
  | some (version, _, s1) =>
  match readVarInt s1 with
  | none => none
  | some (inputCount, _, s2) =>
  if inputCount > 0 then
    -- The tx isn't extended.
    match readTxIns inputCount s2 with
    | none => none
    | some (txIn, _, s3) =>
    match readVarInt s3 with
    | none => none
    | some (outputCount, _, s4) =>
    match readTxOuts outputCount s4 with
    | none => none
    | some (txOut, _, s5) =>
    match readU32 s5 with
    | none => none
    | some (lockTime, _, s6) => some (⟨⟨version, txIn, txOut, lockTime⟩, []⟩, s6)
  else
    match readVarInt s2 with
    | none => none
    | some (outputCount, _, s3) =>
    if outputCount > 0 then
      -- The tx doesn't have any inputs, but isn't extended.
      match readTxOuts outputCount s3 with
      | none => none
      | some (txOut, _, s4) =>
      match readU32 s4 with
      | none => none
      | some (lockTime, _, s5) => some (⟨⟨version, [], txOut, lockTime⟩, []⟩, s5)
    else
      match readU32 s3 with
      | none => none
      | some (lockTime, _, s4) =>
      if lockTime ≠ MarkerLockTime then
        -- The tx has no inputs or outputs, but isn't extended.
        some (⟨⟨version, [], [], lockTime⟩, []⟩, s4)
      else
        -- The tx is extended and the actual input count follows.
        match readVarInt s4 with
        | none => none
        | some (inputCount2, _, s5) =>
        match readExtendedPairs inputCount2 s5 with
        | none => none
        | some (txIn, spentOutputs, s6) =>
        match readVarInt s6 with
        | none => none
        | some (outputCount2, _, s7) =>
        match readTxOuts outputCount2 s7 with
        | none => none
        | some (txOut, _, s8) =>
        match readU32 s8 with
        | none => none
        | some (lockTime2, _, s9) =>
          some (⟨⟨version, txIn, txOut, lockTime2⟩, spentOutputs⟩, s9)

/-- The extended input loop of `DeserializeTxID` (source lines 323-333): the
input record is read through the tee (hashed), its paired output record is
read from the raw reader (not hashed).  Returns the hashed bytes and rest. -/
def readTxIDExtendedPairs : Nat → List Byte → Option (List Byte × List Byte)
  | 0, s => some ([], s)
  | n + 1, s =>
    match TxIn.deserialize s with
    | none => none
    | some (_, ci, s1) =>
      match TxOut.deserialize s1 with
      | none => none
      | some (_, _, s2) =>
        match readTxIDExtendedPairs n s2 with
        | none => none
        | some (h, s3) => some (ci ++ h, s3)

/-- `DeserializeTxID`, embedded as the exact sequence of bytes fed into the
digest (the preimage of the double-SHA256 transaction identifier) together
with the remaining stream.  Reads through the tee contribute their consumed
bytes; reads from the raw reader contribute nothing; explicit
`wire.WriteVarInt(hasher, ...)` and `binary.Write(hasher, ...)` calls
contribute the canonical encoding of the value written. -/
def DeserializeTxID (s : List Byte) : Option (List Byte × List Byte) :=
  match readU32 s with                      -- version, via tee
  | none => none
  | some (_, cv, s1) =>
  match readVarInt s1 with                  -- input count, raw reader
  | none => none
  | some (inputCount, _, s2) =>
  if inputCount > 0 then
    -- The tx isn't extended; re-write the input count into the hasher.
    match readTxIns inputCount s2 with      -- via tee
    | none => none
    | some (_, cIns, s3) =>
    match readVarInt s3 with                -- output count, via tee
    | none => none
    | some (outputCount, cOc, s4) =>
    match readTxOuts outputCount s4 with    -- via tee
    | none => none
    | some (_, cOuts, s5) =>
    match readU32 s5 with                   -- lock time, via tee
    | none => none
    | some (_, cLock, s6) =>
      some (cv ++ writeVarInt inputCount ++ cIns ++ cOc ++ cOuts ++ cLock, s6)
  else
    match readVarInt s2 with                -- output count, raw reader
    | none => none
    | some (outputCount, _, s3) =>
    if outputCount > 0 then
      -- No inputs, not extended; write both counts into the hasher.
      match readTxOuts outputCount s3 with  -- via tee
      | none => none
      | some (_, cOuts, s4) =>
      match readU32 s4 with                 -- lock time, via tee
      | none => none
      | some (_, cLock, s5) =>
        some (cv ++ writeVarInt inputCount ++ writeVarInt outputCount ++ cOuts ++ cLock, s5)
    else
      match readU32 s3 with                 -- lock time, raw reader
      | none => none
      | some (lockTime, _, s4) =>
      if lockTime ≠ MarkerLockTime then
        -- Empty, not extended; write counts and lock time into the hasher.
        some (cv ++ writeVarInt inputCount ++ writeVarInt outputCount ++ putU32 lockTime, s4)
      else
        -- Extended: the real input count follows, via tee.
        match readVarInt s4 with
        | none => none
        | some (inputCount2, cRic, s5) =>
        match readTxIDExtendedPairs inputCount2 s5 with
        | none => none
        | some (hPairs, s6) =>
        match readVarInt s6 with            -- real output count, via tee
        | none => none
        | some (outputCount2, cOc, s7) =>
        match readTxOuts outputCount2 s7 with  -- via tee
        | none => none
        | some (_, cOuts, s8) =>
        match readU32 s8 with               -- real lock time, via tee
        | none => none
        | some (_, cLock, s9) =>
          some (cv ++ cRic ++ hPairs ++ cOc ++ cOuts ++ cLock, s9)

/-- Whether a stream selects the Extended branch of the disambiguation: first
varint zero, second varint zero, and the following 4 little-endian bytes equal
to the marker lock time `0xEF000000`. -/
def isExtendedStream (s : List Byte) : Bool :=
  match readU32 s with
  | none => false
  | some (_, _, s1) =>
  match readVarInt s1 with
  | none => false
  | some (c1, _, s2) =>
  if c1 > 0 then false else
  match readVarInt s2 with
  | none => false
  | some (c2, _, s3) =>
  if c2 > 0 then false else
  match readU32 s3 with
  | none => false
  | some (lt, _, _) => lt == MarkerLockTime

/-- Field bounds matching the Go record types. -/
@[reducible] def TxIn.wf (i : TxIn) : Prop :=
  i.prevHash.length = 32 ∧ i.prevIndex < 4294967296 ∧
    i.unlockingScript.length < 18446744073709551616 ∧ i.sequence < 4294967296

/-- Field bounds matching the Go record types. -/
@[reducible] def TxOut.wf (o : TxOut) : Prop :=
  o.value < 18446744073709551616 ∧ o.lockingScript.length < 18446744073709551616

/-- Field bounds matching the Go transaction type. -/
@[reducible] def MsgTx.wf (tx : MsgTx) : Prop :=
  tx.version < 4294967296 ∧ tx.lockTime < 4294967296 ∧
    tx.txIn.length < 18446744073709551616 ∧
    tx.txOut.length < 18446744073709551616 ∧
    (∀ i ∈ tx.txIn, i.wf) ∧ (∀ o ∈ tx.txOut, o.wf)

/-- Byte-list literal helper. -/
def bytes (l : List Nat) : List Byte := l.map byte

/-- A coinbase input: all-zero previous-output hash. -/
def coinbaseInput : TxIn := ⟨List.replicate 32 (byte 0), 0, [], 0⟩

/-- A transaction with a single coinbase input whose spent output is
resolvable (the resolver returns a 5-satoshi output). -/
def coinbaseTx : TransactionWithOutputs :=
  ⟨⟨1, [coinbaseInput], [], 7⟩, fun _ => some ⟨5, []⟩⟩

/-- A well-formed single-input single-output transaction with a resolvable,
non-coinbase spent output. -/
def sampleTx : TransactionWithOutputs :=
  ⟨⟨1, [⟨List.replicate 32 (byte 1), 0, [], 4294967295⟩], [⟨9990, [byte 81]⟩], 0⟩,
    fun _ => some ⟨10000, [byte 82]⟩⟩

/-- A transaction with one non-coinbase input whose spent output the resolver
cannot supply. -/
def unresolvableTx : TransactionWithOutputs :=
  ⟨⟨1, [⟨List.replicate 32 (byte 1), 0, [], 0⟩], [], 0⟩, fun _ => none⟩

/-! ### Primitive codec lemmas -/

theorem byte_val_of_lt {n : Nat} (h : n < 256) : (byte n).val = n :=
  Nat.mod_eq_of_lt h

theorem putU16_val (b0 b1 : Byte) :
    putU16 (b0.val + 256 * b1.val) = [b0, b1] := by
  have h0 := b0.isLt; have h1 := b1.isLt
  simp only [putU16, List.cons.injEq, and_true]
  refine ⟨Fin.ext ?_, Fin.ext ?_⟩ <;> · show _ % 256 = _; omega

theorem putU32_val (b0 b1 b2 b3 : Byte) :
    putU32 (b0.val + 256 * b1.val + 65536 * b2.val + 16777216 * b3.val) =
      [b0, b1, b2, b3] := by
  have h0 := b0.isLt; have h1 := b1.isLt; have h2 := b2.isLt; have h3 := b3.isLt
  simp only [putU32, List.cons.injEq, and_true]
  refine ⟨Fin.ext ?_, Fin.ext ?_, Fin.ext ?_, Fin.ext ?_⟩ <;> · show _ % 256 = _; omega

theorem putU64_val (b0 b1 b2 b3 b4 b5 b6 b7 : Byte) :
    putU64 (b0.val + 256 * b1.val + 65536 * b2.val + 16777216 * b3.val +
        4294967296 * b4.val + 1099511627776 * b5.val +
        281474976710656 * b6.val + 72057594037927936 * b7.val) =
      [b0, b1, b2, b3, b4, b5, b6, b7] := by
  have h0 := b0.isLt; have h1 := b1.isLt; have h2 := b2.isLt; have h3 := b3.isLt
  have h4 := b4.isLt; have h5 := b5.isLt; have h6 := b6.isLt; have h7 := b7.isLt
  simp only [putU64, List.cons.injEq, and_true]
  refine ⟨Fin.ext ?_, Fin.ext ?_, Fin.ext ?_, Fin.ext ?_, Fin.ext ?_, Fin.ext ?_,
    Fin.ext ?_, Fin.ext ?_⟩ <;> · show _ % 256 = _; omega

theorem readU16_some {s : List Byte} {v : Nat} {c r : List Byte}
    (h : readU16 s = some (v, c, r)) :
    c = putU16 v ∧ s = c ++ r ∧ v < 65536 := by
  match s with
  | [] => simp [readU16] at h
  | [_] => simp [readU16] at h
  | b0 :: b1 :: rest =>
    have h0 := b0.isLt; have h1 := b1.isLt
    simp only [readU16, Option.some.injEq, Prod.mk.injEq] at h
    obtain ⟨hv, hc, hr⟩ := h
    subst hv hc hr
    exact ⟨(putU16_val b0 b1).symm, rfl, by omega⟩

theorem readU32_some {s : List Byte} {v : Nat} {c r : List Byte}
    (h : readU32 s = some (v, c, r)) :
    c = putU32 v ∧ s = c ++ r ∧ v < 4294967296 := by
  match s with
  | [] => simp [readU32] at h
  | [_] => simp [readU32] at h
  | [_, _] => simp [readU32] at h
  | [_, _, _] => simp [readU32] at h
  | b0 :: b1 :: b2 :: b3 :: rest =>
    have h0 := b0.isLt; have h1 := b1.isLt; have h2 := b2.isLt; have h3 := b3.isLt
    simp only [readU32, Option.some.injEq, Prod.mk.injEq] at h
    obtain ⟨hv, hc, hr⟩ := h
    subst hv hc hr
    exact ⟨(putU32_val b0 b1 b2 b3).symm, rfl, by omega⟩

theorem readU64_some {s : List Byte} {v : Nat} {c r : List Byte}
    (h : readU64 s = some (v, c, r)) :
    c = putU64 v ∧ s = c ++ r ∧ v < 18446744073709551616 := by
  match s with
  | [] => simp [readU64] at h
  | [_] => simp [readU64] at h
  | [_, _] => simp [readU64] at h
  | [_, _, _] => simp [readU64] at h
  | [_, _, _, _] => simp [readU64] at h
  | [_, _, _, _, _] => simp [readU64] at h
  | [_, _, _, _, _, _] => simp [readU64] at h
  | [_, _, _, _, _, _, _] => simp [readU64] at h
  | b0 :: b1 :: b2 :: b3 :: b4 :: b5 :: b6 :: b7 :: rest =>
    have h0 := b0.isLt; have h1 := b1.isLt; have h2 := b2.isLt; have h3 := b3.isLt
    have h4 := b4.isLt; have h5 := b5.isLt; have h6 := b6.isLt; have h7 := b7.isLt
    simp only [readU64, Option.some.injEq, Prod.mk.injEq] at h
    obtain ⟨hv, hc, hr⟩ := h
    subst hv hc hr
    exact ⟨(putU64_val b0 b1 b2 b3 b4 b5 b6 b7).symm, rfl, by omega⟩

theorem readU16_put {n : Nat} (h : n < 65536) (t : List Byte) :
    readU16 (putU16 n ++ t) = some (n, putU16 n, t) := by
  simp only [putU16, List.cons_append, List.nil_append, readU16,
    Option.some.injEq, Prod.mk.injEq, and_true, true_and]
  show n % 256 + 256 * (n / 256 % 256) = n
  omega

theorem readU32_put {n : Nat} (h : n < 4294967296) (t : List Byte) :
    readU32 (putU32 n ++ t) = some (n, putU32 n, t) := by
  simp only [putU32, List.cons_append, List.nil_append, readU32,
    Option.some.injEq, Prod.mk.injEq, and_true, true_and]
  show n % 256 + 256 * (n / 256 % 256) + 65536 * (n / 65536 % 256) +
    16777216 * (n / 16777216 % 256) = n
  omega

theorem readU64_put {n : Nat} (h : n < 18446744073709551616) (t : List Byte) :
    readU64 (putU64 n ++ t) = some (n, putU64 n, t) := by
  simp only [putU64, List.cons_append, List.nil_append, readU64,
    Option.some.injEq, Prod.mk.injEq, and_true, true_and]
  show n % 256 + 256 * (n / 256 % 256) + 65536 * (n / 65536 % 256) +
    16777216 * (n / 16777216 % 256) + 4294967296 * (n / 4294967296 % 256) +
    1099511627776 * (n / 1099511627776 % 256) +
    281474976710656 * (n / 281474976710656 % 256) +
    72057594037927936 * (n / 72057594037927936 % 256) = n
  omega

theorem readU16_append {s t : List Byte} {v : Nat} {c r : List Byte}
    (h : readU16 s = some (v, c, r)) : readU16 (s ++ t) = some (v, c, r ++ t) := by
  obtain ⟨hc, hs, hv⟩ := readU16_some h
  subst hc; subst hs
  rw [List.append_assoc, readU16_put hv]

theorem readU32_append {s t : List Byte} {v : Nat} {c r : List Byte}
    (h : readU32 s = some (v, c, r)) : readU32 (s ++ t) = some (v, c, r ++ t) := by
  obtain ⟨hc, hs, hv⟩ := readU32_some h
  subst hc; subst hs
  rw [List.append_assoc, readU32_put hv]

theorem readU64_append {s t : List Byte} {v : Nat} {c r : List Byte}
    (h : readU64 s = some (v, c, r)) : readU64 (s ++ t) = some (v, c, r ++ t) := by
  obtain ⟨hc, hs, hv⟩ := readU64_some h
  subst hc; subst hs
  rw [List.append_assoc, readU64_put hv]

theorem readBytes_some {n : Nat} {s c1 c r : List Byte}
    (h : readBytes n s = some (c1, c, r)) :
    c1 = c ∧ c.length = n ∧ s = c ++ r := by
  unfold readBytes at h
  split at h
  · rename_i hle
    simp only [Option.some.injEq, Prod.mk.injEq] at h
    obtain ⟨h1, h2, h3⟩ := h
    subst h1 h2 h3
    refine ⟨rfl, ?_, (List.take_append_drop n s).symm⟩
    rw [List.length_take]; omega
  · exact absurd h (by simp)

theorem readBytes_exact {c : List Byte} {n : Nat} (h : c.length = n) (t : List Byte) :
    readBytes n (c ++ t) = some (c, c, t) := by
  subst h
  unfold readBytes
  rw [if_pos (by simp), List.take_left, List.drop_left]

theorem readBytes_append {n : Nat} {s t c1 c r : List Byte}
    (h : readBytes n s = some (c1, c, r)) :
    readBytes n (s ++ t) = some (c1, c, r ++ t) := by
  obtain ⟨h1, h2, h3⟩ := readBytes_some h
  subst h1; subst h3
  rw [List.append_assoc, readBytes_exact h2]

theorem readVarInt_some {s : List Byte} {v : Nat} {c r : List Byte}
    (h : readVarInt s = some (v, c, r)) :
    c = writeVarInt v ∧ s = c ++ r ∧ v < 18446744073709551616 := by
  match s with
  | [] => simp [readVarInt] at h
  | d :: rest =>
    have hd := d.isLt
    simp only [readVarInt] at h
    by_cases h255 : d.val = 255
    · rw [if_pos h255] at h
      match hU : readU64 rest with
      | none => rw [hU] at h; exact absurd h (by simp)
      | some (v', c', r') =>
        rw [hU] at h
        obtain ⟨hc', hs', hv'⟩ := readU64_some hU
        change (if 4294967296 ≤ v' then some (v', d :: c', r') else none) = some (v, c, r) at h
        by_cases hge : 4294967296 ≤ v'
        · rw [if_pos hge] at h
          simp only [Option.some.injEq, Prod.mk.injEq] at h
          obtain ⟨h1, h2, h3⟩ := h
          subst h1 h2 h3
          have hw : writeVarInt v' = byte 255 :: putU64 v' := by
            unfold writeVarInt
            rw [if_neg (by omega), if_neg (by omega), if_neg (by omega)]
          have hdb : d = byte 255 := Fin.ext (by rw [byte_val_of_lt (by norm_num), h255])
          refine ⟨by rw [hw, hdb, hc'], by simp [hs'], by omega⟩
        · rw [if_neg hge] at h; exact absurd h (by simp)
    · rw [if_neg h255] at h
      by_cases h254 : d.val = 254
      · rw [if_pos h254] at h
        match hU : readU32 rest with
        | none => rw [hU] at h; exact absurd h (by simp)
        | some (v', c', r') =>
          rw [hU] at h
          obtain ⟨hc', hs', hv'⟩ := readU32_some hU
          change (if 65536 ≤ v' then some (v', d :: c', r') else none) = some (v, c, r) at h
          by_cases hge : 65536 ≤ v'
          · rw [if_pos hge] at h
            simp only [Option.some.injEq, Prod.mk.injEq] at h
            obtain ⟨h1, h2, h3⟩ := h
            subst h1 h2 h3
            have hw : writeVarInt v' = byte 254 :: putU32 v' := by
              unfold writeVarInt
              rw [if_neg (by omega), if_neg (by omega), if_pos (by omega)]
            have hdb : d = byte 254 := Fin.ext (by rw [byte_val_of_lt (by norm_num), h254])
            refine ⟨by rw [hw, hdb, hc'], by simp [hs'], by omega⟩
          · rw [if_neg hge] at h; exact absurd h (by simp)
      · rw [if_neg h254] at h
        by_cases h253 : d.val = 253
        · rw [if_pos h253] at h
          match hU : readU16 rest with
          | none => rw [hU] at h; exact absurd h (by simp)
          | some (v', c', r') =>
            rw [hU] at h
            obtain ⟨hc', hs', hv'⟩ := readU16_some hU
            change (if 253 ≤ v' then some (v', d :: c', r') else none) = some (v, c, r) at h
            by_cases hge : 253 ≤ v'
            · rw [if_pos hge] at h
              simp only [Option.some.injEq, Prod.mk.injEq] at h
              obtain ⟨h1, h2, h3⟩ := h
              subst h1 h2 h3
              have hw : writeVarInt v' = byte 253 :: putU16 v' := by
                unfold writeVarInt
                rw [if_neg (by omega), if_pos (by omega)]
              have hdb : d = byte 253 := Fin.ext (by rw [byte_val_of_lt (by norm_num), h253])
              refine ⟨by rw [hw, hdb, hc'], by simp [hs'], by omega⟩
            · rw [if_neg hge] at h; exact absurd h (by simp)
        · rw [if_neg h253] at h
          simp only [Option.some.injEq, Prod.mk.injEq] at h
          obtain ⟨h1, h2, h3⟩ := h
          subst h1 h2 h3
          have hw : writeVarInt d.val = [byte d.val] := by
            unfold writeVarInt
            rw [if_pos (by omega)]
          have hdb : byte d.val = d := Fin.ext (byte_val_of_lt hd)
          refine ⟨by rw [hw, hdb], rfl, by omega⟩

theorem readVarInt_write {n : Nat} (h : n < 18446744073709551616) (t : List Byte) :
    readVarInt (writeVarInt n ++ t) = some (n, writeVarInt n, t) := by
  rw [writeVarInt]
  split_ifs with h1 h2 h3
  · have hv : (byte n).val = n := byte_val_of_lt (by omega)
    have e1 : n ≠ 255 := by omega
    have e2 : n ≠ 254 := by omega
    have e3 : n ≠ 253 := by omega
    simp [readVarInt, hv, e1, e2, e3]
  · have hn1 : n < 65536 := by omega
    have hn2 : 253 ≤ n := by omega
    simp [readVarInt, readU16_put hn1 t, hn2, show ((byte 253 : Byte).val) = 253 from rfl]
  · have hn1 : n < 4294967296 := by omega
    have hn2 : 65536 ≤ n := by omega
    simp [readVarInt, readU32_put hn1 t, hn2, show ((byte 254 : Byte).val) = 254 from rfl]
  · have hn2 : 4294967296 ≤ n := by omega
    simp [readVarInt, readU64_put h t, hn2, show ((byte 255 : Byte).val) = 255 from rfl]

theorem readVarInt_append {s t : List Byte} {v : Nat} {c r : List Byte}
    (h : readVarInt s = some (v, c, r)) :
    readVarInt (s ++ t) = some (v, c, r ++ t) := by
  obtain ⟨hc, hs, hv⟩ := readVarInt_some h
  subst hc; subst hs
  rw [List.append_assoc, readVarInt_write hv]

/-! ### Input and output record lemmas -/

theorem txIn_parse_consumed {s : List Byte} {i : TxIn} {c r : List Byte}
    (h : TxIn.deserialize s = some (i, c, r)) :
    c = i.serialize ∧ s = c ++ r ∧ i.wf := by
  cases hB1 : readBytes 32 s with
  | none => simp [TxIn.deserialize, hB1] at h
  | some x1 =>
  obtain ⟨hash, c1, s1⟩ := x1
  cases hU1 : readU32 s1 with
  | none => simp [TxIn.deserialize, hB1, hU1] at h
  | some x2 =>
  obtain ⟨idx, c2, s2⟩ := x2
  cases hV : readVarInt s2 with
  | none => simp [TxIn.deserialize, hB1, hU1, hV] at h
  | some x3 =>
  obtain ⟨len, c3, s3⟩ := x3
  cases hB2 : readBytes len s3 with
  | none => simp [TxIn.deserialize, hB1, hU1, hV, hB2] at h
  | some x4 =>
  obtain ⟨script, c4, s4⟩ := x4
  cases hU2 : readU32 s4 with
  | none => simp [TxIn.deserialize, hB1, hU1, hV, hB2, hU2] at h
  | some x5 =>
  obtain ⟨seq, c5, s5⟩ := x5
  simp only [TxIn.deserialize, hB1, hU1, hV, hB2, hU2, Option.some.injEq,
    Prod.mk.injEq] at h
  obtain ⟨hi, hc, hr⟩ := h
  subst hi; subst hc; subst hr
  obtain ⟨ehash, elen, es⟩ := readBytes_some hB1
  obtain ⟨f1, f2, f3⟩ := readU32_some hU1
  obtain ⟨g1, g2, g3⟩ := readVarInt_some hV
  obtain ⟨escr, elen4, es4⟩ := readBytes_some hB2
  obtain ⟨l1, l2, l3⟩ := readU32_some hU2
  subst ehash; subst escr
  refine ⟨?_, ?_, ?_⟩
  · simp only [TxIn.serialize]
    rw [f1, g1, l1, elen4]
  · rw [es, f2, g2, es4, l2]
    simp [List.append_assoc]
  · exact ⟨elen, f3, by rw [elen4]; exact g3, l3⟩

theorem txIn_parse_of_serialize {i : TxIn} (hw : i.wf) (t : List Byte) :
    TxIn.deserialize (i.serialize ++ t) = some (i, i.serialize, t) := by
  obtain ⟨h1, h2, h3, h4⟩ := hw
  have e : i.serialize ++ t =
      i.prevHash ++ (putU32 i.prevIndex ++ (writeVarInt i.unlockingScript.length ++
        (i.unlockingScript ++ (putU32 i.sequence ++ t)))) := by
    simp [TxIn.serialize, List.append_assoc]
  rw [e]
  simp only [TxIn.deserialize, readBytes_exact h1, readU32_put h2,
    readVarInt_write h3, readBytes_exact (rfl : i.unlockingScript.length = _),
    readU32_put h4]
  simp [TxIn.serialize, List.append_assoc]

theorem txIn_parse_append {s t : List Byte} {i : TxIn} {c r : List Byte}
    (h : TxIn.deserialize s = some (i, c, r)) :
    TxIn.deserialize (s ++ t) = some (i, c, r ++ t) := by
  obtain ⟨hc, hs, hw⟩ := txIn_parse_consumed h
  subst hc; subst hs
  rw [List.append_assoc, txIn_parse_of_serialize hw]

theorem txOut_parse_consumed {s : List Byte} {o : TxOut} {c r : List Byte}
    (h : TxOut.deserialize s = some (o, c, r)) :
    c = o.serialize ∧ s = c ++ r ∧ o.wf := by
  cases hU : readU64 s with
  | none => simp [TxOut.deserialize, hU] at h
  | some x1 =>
  obtain ⟨v, c1, s1⟩ := x1
  cases hV : readVarInt s1 with
  | none => simp [TxOut.deserialize, hU, hV] at h
  | some x2 =>
  obtain ⟨len, c2, s2⟩ := x2
  cases hB : readBytes len s2 with
  | none => simp [TxOut.deserialize, hU, hV, hB] at h
  | some x3 =>
  obtain ⟨script, c3, s3⟩ := x3
  simp only [TxOut.deserialize, hU, hV, hB, Option.some.injEq, Prod.mk.injEq] at h
  obtain ⟨ho, hc, hr⟩ := h
  subst ho; subst hc; subst hr
  obtain ⟨e1, e2, e3⟩ := readU64_some hU
  obtain ⟨f1, f2, f3⟩ := readVarInt_some hV
  obtain ⟨escr, elen, es⟩ := readBytes_some hB
  subst escr
  refine ⟨?_, ?_, ?_⟩
  · simp only [TxOut.serialize]
    rw [e1, f1, elen]
  · rw [e2, f2, es]
    simp [List.append_assoc]
  · exact ⟨e3, by rw [elen]; exact f3⟩

theorem txOut_parse_of_serialize {o : TxOut} (hw : o.wf) (t : List Byte) :
    TxOut.deserialize (o.serialize ++ t) = some (o, o.serialize, t) := by
  obtain ⟨h1, h2⟩ := hw
  have e : o.serialize ++ t =
      putU64 o.value ++ (writeVarInt o.lockingScript.length ++
        (o.lockingScript ++ t)) := by
    simp [TxOut.serialize, List.append_assoc]
  rw [e]
  simp only [TxOut.deserialize, readU64_put h1, readVarInt_write h2,
    readBytes_exact (rfl : o.lockingScript.length = _)]
  simp [TxOut.serialize, List.append_assoc]

theorem txOut_parse_append {s t : List Byte} {o : TxOut} {c r : List Byte}
    (h : TxOut.deserialize s = some (o, c, r)) :
    TxOut.deserialize (s ++ t) = some (o, c, r ++ t) := by
  obtain ⟨hc, hs, hw⟩ := txOut_parse_consumed h
  subst hc; subst hs
  rw [List.append_assoc, txOut_parse_of_serialize hw]

/-! ### Counted reader lemmas -/

theorem readTxIns_some : ∀ {n : Nat} {s : List Byte} {l : List TxIn} {c r : List Byte},
    readTxIns n s = some (l, c, r) →
    l.length = n ∧ c = (l.map TxIn.serialize).flatten ∧ s = c ++ r ∧ ∀ i ∈ l, i.wf := by
  intro n
  induction n with
  | zero =>
    intro s l c r h
    simp only [readTxIns, Option.some.injEq, Prod.mk.injEq] at h
    obtain ⟨h1, h2, h3⟩ := h
    subst h1; subst h2; subst h3
    simp
  | succ m ih =>
    intro s l c r h
    cases hI : TxIn.deserialize s with
    | none => simp [readTxIns, hI] at h
    | some x1 =>
    obtain ⟨i, c1, s1⟩ := x1
    cases hR : readTxIns m s1 with
    | none => simp [readTxIns, hI, hR] at h
    | some x2 =>
    obtain ⟨l2, c2, s2⟩ := x2
    simp only [readTxIns, hI, hR, Option.some.injEq, Prod.mk.injEq] at h
    obtain ⟨h1, h2, h3⟩ := h
    subst h1; subst h2; subst h3
    obtain ⟨e1, e2, e3⟩ := txIn_parse_consumed hI
    obtain ⟨f1, f2, f3, f4⟩ := ih hR
    subst e1
    refine ⟨by simp [f1], by simp [f2], ?_, ?_⟩
    · rw [e2, f3]
      simp [List.append_assoc]
    · intro j hj
      rcases List.mem_cons.mp hj with hj | hj
      · subst hj; exact e3
      · exact f4 _ hj

theorem readTxIns_flatten : ∀ {l : List TxIn}, (∀ i ∈ l, i.wf) → ∀ (t : List Byte),
    readTxIns l.length ((l.map TxIn.serialize).flatten ++ t) =
      some (l, (l.map TxIn.serialize).flatten, t) := by
  intro l
  induction l with
  | nil => intro _ t; simp [readTxIns]
  | cons i l2 ih =>
    intro hw t
    have hwi : i.wf := hw i (by simp)
    have hwl : ∀ j ∈ l2, j.wf := fun j hj => hw j (by simp [hj])
    simp only [List.map_cons, List.flatten_cons, List.length_cons, List.append_assoc]
    simp only [readTxIns, txIn_parse_of_serialize hwi, ih hwl]

theorem readTxIns_append {n : Nat} {s t : List Byte} {l : List TxIn} {c r : List Byte}
    (h : readTxIns n s = some (l, c, r)) :
    readTxIns n (s ++ t) = some (l, c, r ++ t) := by
  obtain ⟨h1, h2, h3, h4⟩ := readTxIns_some h
  subst h1; subst h2; subst h3
  rw [List.append_assoc, readTxIns_flatten h4]

theorem readTxOuts_some : ∀ {n : Nat} {s : List Byte} {l : List TxOut} {c r : List Byte},
    readTxOuts n s = some (l, c, r) →
    l.length = n ∧ c = (l.map TxOut.serialize).flatten ∧ s = c ++ r ∧ ∀ o ∈ l, o.wf := by
  intro n
  induction n with
  | zero =>
    intro s l c r h
    simp only [readTxOuts, Option.some.injEq, Prod.mk.injEq] at h
    obtain ⟨h1, h2, h3⟩ := h
    subst h1; subst h2; subst h3
    simp
  | succ m ih =>
    intro s l c r h
    cases hO : TxOut.deserialize s with
    | none => simp [readTxOuts, hO] at h
    | some x1 =>
    obtain ⟨o, c1, s1⟩ := x1
    cases hR : readTxOuts m s1 with
    | none => simp [readTxOuts, hO, hR] at h
    | some x2 =>
    obtain ⟨l2, c2, s2⟩ := x2
    simp only [readTxOuts, hO, hR, Option.some.injEq, Prod.mk.injEq] at h
    obtain ⟨h1, h2, h3⟩ := h
    subst h1; subst h2; subst h3
    obtain ⟨e1, e2, e3⟩ := txOut_parse_consumed hO
    obtain ⟨f1, f2, f3, f4⟩ := ih hR
    subst e1
    refine ⟨by simp [f1], by simp [f2], ?_, ?_⟩
    · rw [e2, f3]
      simp [List.append_assoc]
    · intro j hj
      rcases List.mem_cons.mp hj with hj | hj
      · subst hj; exact e3
      · exact f4 _ hj

theorem readTxOuts_flatten : ∀ {l : List TxOut}, (∀ o ∈ l, o.wf) → ∀ (t : List Byte),
    readTxOuts l.length ((l.map TxOut.serialize).flatten ++ t) =
      some (l, (l.map TxOut.serialize).flatten, t) := by
  intro l
  induction l with
  | nil => intro _ t; simp [readTxOuts]
  | cons o l2 ih =>
    intro hw t
    have hwo : o.wf := hw o (by simp)
    have hwl : ∀ j ∈ l2, j.wf := fun j hj => hw j (by simp [hj])
    simp only [List.map_cons, List.flatten_cons, List.length_cons, List.append_assoc]
    simp only [readTxOuts, txOut_parse_of_serialize hwo, ih hwl]

theorem readTxOuts_append {n : Nat} {s t : List Byte} {l : List TxOut} {c r : List Byte}
    (h : readTxOuts n s = some (l, c, r)) :
    readTxOuts n (s ++ t) = some (l, c, r ++ t) := by
  obtain ⟨h1, h2, h3, h4⟩ := readTxOuts_some h
  subst h1; subst h2; subst h3
  rw [List.append_assoc, readTxOuts_flatten h4]

/-! ### Extended pair and encoder loop lemmas -/

theorem readExtendedPairs_some : ∀ {n : Nat} {s : List Byte} {ins : List TxIn}
    {outs : List Output} {r : List Byte},
    readExtendedPairs n s = some (ins, outs, r) →
    ins.length = n ∧ outs.length = n ∧
      readTxIDExtendedPairs n s = some ((ins.map TxIn.serialize).flatten, r) := by
  intro n
  induction n with
  | zero =>
    intro s ins outs r h
    simp only [readExtendedPairs, Option.some.injEq, Prod.mk.injEq] at h
    obtain ⟨h1, h2, h3⟩ := h
    subst h1; subst h2; subst h3
    simp [readTxIDExtendedPairs]
  | succ m ih =>
    intro s ins outs r h
    cases hI : TxIn.deserialize s with
    | none => simp [readExtendedPairs, hI] at h
    | some x1 =>
    obtain ⟨i, ci, s1⟩ := x1
    cases hO : TxOut.deserialize s1 with
    | none => simp [readExtendedPairs, hI, hO] at h
    | some x2 =>
    obtain ⟨o, co, s2⟩ := x2
    cases hR : readExtendedPairs m s2 with
    | none => simp [readExtendedPairs, hI, hO, hR] at h
    | some x3 =>
    obtain ⟨ins2, outs2, s3⟩ := x3
    simp only [readExtendedPairs, hI, hO, hR, Option.some.injEq, Prod.mk.injEq] at h
    obtain ⟨h1, h2, h3⟩ := h
    subst h1; subst h2; subst h3
    obtain ⟨f1, f2, f3⟩ := ih hR
    obtain ⟨e1, _, _⟩ := txIn_parse_consumed hI
    refine ⟨by simp [f1], by simp [f2], ?_⟩
    simp only [readTxIDExtendedPairs, hI, hO, f3]
    simp [e1]

theorem readTxIDExtendedPairs_inv : ∀ {n : Nat} {s hb r : List Byte},
    readTxIDExtendedPairs n s = some (hb, r) →
    ∃ ins outs, readExtendedPairs n s = some (ins, outs, r) := by
  intro n
  induction n with
  | zero =>
    intro s hb r h
    simp only [readTxIDExtendedPairs, Option.some.injEq, Prod.mk.injEq] at h
    obtain ⟨h1, h2⟩ := h
    subst h2
    exact ⟨[], [], by simp [readExtendedPairs]⟩
  | succ m ih =>
    intro s hb r h
    cases hI : TxIn.deserialize s with
    | none => simp [readTxIDExtendedPairs, hI] at h
    | some x1 =>
    obtain ⟨i, ci, s1⟩ := x1
    cases hO : TxOut.deserialize s1 with
    | none => simp [readTxIDExtendedPairs, hI, hO] at h
    | some x2 =>
    obtain ⟨o, co, s2⟩ := x2
    cases hR : readTxIDExtendedPairs m s2 with
    | none => simp [readTxIDExtendedPairs, hI, hO, hR] at h
    | some x3 =>
    obtain ⟨hb2, s3⟩ := x3
    simp only [readTxIDExtendedPairs, hI, hO, hR, Option.some.injEq, Prod.mk.injEq] at h
    obtain ⟨h1, h2⟩ := h
    subst h1; subst h2
    obtain ⟨ins2, outs2, hE⟩ := ih hR
    exact ⟨i :: ins2, Output.mk o.value o.lockingScript :: outs2,
      by simp [readExtendedPairs, hI, hO, hE]⟩

theorem readExtendedPairs_append : ∀ {n : Nat} {s t : List Byte} {ins : List TxIn}
    {outs : List Output} {r : List Byte},
    readExtendedPairs n s = some (ins, outs, r) →
    readExtendedPairs n (s ++ t) = some (ins, outs, r ++ t) := by
  intro n
  induction n with
  | zero =>
    intro s t ins outs r h
    simp only [readExtendedPairs, Option.some.injEq, Prod.mk.injEq] at h
    obtain ⟨h1, h2, h3⟩ := h
    subst h1; subst h2; subst h3
    simp [readExtendedPairs]
  | succ m ih =>
    intro s t ins outs r h
    cases hI : TxIn.deserialize s with
    | none => simp [readExtendedPairs, hI] at h
    | some x1 =>
    obtain ⟨i, ci, s1⟩ := x1
    cases hO : TxOut.deserialize s1 with
    | none => simp [readExtendedPairs, hI, hO] at h
    | some x2 =>
    obtain ⟨o, co, s2⟩ := x2
    cases hR : readExtendedPairs m s2 with
    | none => simp [readExtendedPairs, hI, hO, hR] at h
    | some x3 =>
    obtain ⟨ins2, outs2, s3⟩ := x3
    simp only [readExtendedPairs, hI, hO, hR, Option.some.injEq, Prod.mk.injEq] at h
    obtain ⟨h1, h2, h3⟩ := h
    subst h1; subst h2; subst h3
    simp only [readExtendedPairs, txIn_parse_append hI, txOut_parse_append hO,
      ih hR]

theorem readExtendedPairs_serialize : ∀ {ins : List TxIn} {outs : List TxOut},
    ins.length = outs.length → (∀ i ∈ ins, i.wf) → (∀ o ∈ outs, o.wf) →
    ∀ (t : List Byte),
    readExtendedPairs ins.length
        ((List.zipWith serializeExtendedInput ins outs).flatten ++ t) =
      some (ins, outs.map (fun o => Output.mk o.value o.lockingScript), t) := by
  intro ins
  induction ins with
  | nil =>
    intro outs hlen _ _ t
    have h0 : outs = [] := List.length_eq_zero.mp hlen.symm
    subst h0
    simp [readExtendedPairs]
  | cons i ins2 ih =>
    intro outs hlen hwi hwo t
    match outs with
    | [] => simp at hlen
    | o :: outs2 =>
      have hlen2 : ins2.length = outs2.length := by simpa using hlen
      have hi : i.wf := hwi i (by simp)
      have ho : o.wf := hwo o (by simp)
      have hwi2 : ∀ j ∈ ins2, j.wf := fun j hj => hwi j (by simp [hj])
      have hwo2 : ∀ j ∈ outs2, j.wf := fun j hj => hwo j (by simp [hj])
      simp only [List.zipWith_cons_cons, List.flatten_cons, List.length_cons,
        serializeExtendedInput, List.append_assoc]
      simp only [readExtendedPairs, txIn_parse_of_serialize hi,
        txOut_parse_of_serialize ho, ih hlen2 hwi2 hwo2]
      simp

theorem serializeInputs_eq : ∀ {ins : List TxIn} {outs : List TxOut} {k : Nat}
    {resolver : Nat → Option TxOut},
    ins.length = outs.length →
    (∀ j, j < ins.length → resolver (k + j) = outs[j]?) →
    (∀ i ∈ ins, i.isCoinbase = false) →
    serializeInputs resolver k ins =
      some ((List.zipWith serializeExtendedInput ins outs).flatten) := by
  intro ins
  induction ins with
  | nil =>
    intro outs k resolver _ _ _
    simp [serializeInputs]
  | cons i ins2 ih =>
    intro outs k resolver hlen hres hcb
    match outs with
    | [] => simp at hlen
    | o :: outs2 =>
      have h0 : resolver k = some o := by simpa using hres 0 (by simp)
      have hres2 : ∀ j, j < ins2.length → resolver (k + 1 + j) = outs2[j]? := by
        intro j hj
        have e := hres (j + 1) (by simp; omega)
        have : k + (j + 1) = k + 1 + j := by omega
        rw [this] at e
        simpa using e
      have hcbi : i.isCoinbase = false := hcb i (by simp)
      have hcb2 : ∀ j ∈ ins2, j.isCoinbase = false := fun j hj => hcb j (by simp [hj])
      have hlen2 : ins2.length = outs2.length := by simpa using hlen
      simp only [serializeInputs, hcbi, h0, ih hlen2 hres2 hcb2]
      simp

theorem serializeInputs_resolves : ∀ {ins : List TxIn} {k : Nat}
    {resolver : Nat → Option TxOut} {b : List Byte},
    serializeInputs resolver k ins = some b →
    ∀ j, j < ins.length → (resolver (k + j)).isSome := by
  intro ins
  induction ins with
  | nil =>
    intro k resolver b _ j hj
    simp at hj
  | cons i ins2 ih =>
    intro k resolver b h j hj
    cases hr : resolver k with
    | none => simp [serializeInputs, hr] at h
    | some o =>
      match j with
      | 0 => simp [hr]
      | j' + 1 =>
        cases ht : serializeInputs resolver (k + 1) ins2 with
        | none => simp [serializeInputs, hr, ht] at h
        | some tail =>
          have e := ih ht j' (by simpa using hj)
          have : k + 1 + j' = k + (j' + 1) := by omega
          rw [this] at e
          exact e

/-! ### Branch characterization: decoder vs identifier extractor -/

theorem deserialize_characterization {s : List Byte} {etx : ExpandedTx} {rest : List Byte}
    (h : Deserialize s = some (etx, rest)) :
    DeserializeTxID s = some (MsgTx.serialize etx.tx, rest) ∧
      (isExtendedStream s = false →
        s = MsgTx.serialize etx.tx ++ rest ∧ etx.spentOutputs = []) ∧
      (isExtendedStream s = true →
        etx.spentOutputs.length = etx.tx.txIn.length) := by
  cases hU1 : readU32 s with
  | none => simp [Deserialize, hU1] at h
  | some x1 =>
  obtain ⟨version, cv, s1⟩ := x1
  cases hV1 : readVarInt s1 with
  | none => simp [Deserialize, hU1, hV1] at h
  | some x2 =>
  obtain ⟨inputCount, cic, s2⟩ := x2
  obtain ⟨ecv, ecs, ever⟩ := readU32_some hU1
  obtain ⟨ecic, ecis, eic⟩ := readVarInt_some hV1
  by_cases hgt : inputCount > 0
  · -- Plain-with-inputs branch
    cases hIns : readTxIns inputCount s2 with
    | none => simp [Deserialize, hU1, hV1, hgt, hIns] at h
    | some x3 =>
    obtain ⟨txIn, cIns, s3⟩ := x3
    cases hV2 : readVarInt s3 with
    | none => simp [Deserialize, hU1, hV1, hgt, hIns, hV2] at h
    | some x4 =>
    obtain ⟨oc, cOc, s4⟩ := x4
    cases hOuts : readTxOuts oc s4 with
    | none => simp [Deserialize, hU1, hV1, hgt, hIns, hV2, hOuts] at h
    | some x5 =>
    obtain ⟨txOut, cOuts, s5⟩ := x5
    cases hU2 : readU32 s5 with
    | none => simp [Deserialize, hU1, hV1, hgt, hIns, hV2, hOuts, hU2] at h
    | some x6 =>
    obtain ⟨lt, cLock, s6⟩ := x6
    simp only [Deserialize, hU1, hV1, hgt, if_true, hIns, hV2, hOuts, hU2,
      Option.some.injEq, Prod.mk.injEq] at h
    obtain ⟨hetx, hrest⟩ := h
    subst hetx; subst hrest
    obtain ⟨eIl, eIc, eIs, _⟩ := readTxIns_some hIns
    obtain ⟨eoc, eos, _⟩ := readVarInt_some hV2
    obtain ⟨eOl, eOc, eOs, _⟩ := readTxOuts_some hOuts
    obtain ⟨eL, eLs, _⟩ := readU32_some hU2
    have hser : MsgTx.serialize (MsgTx.mk version txIn txOut lt) =
        cv ++ writeVarInt inputCount ++ cIns ++ cOc ++ cOuts ++ cLock := by
      simp only [MsgTx.serialize]
      rw [ecv, eIl, eIc, eoc, eOl, eOc, eL]
    have hextf : isExtendedStream s = false := by
      simp only [isExtendedStream, hU1, hV1]
      simp [hgt]
    refine ⟨?_, ?_, ?_⟩
    · simp only [DeserializeTxID, hU1, hV1, hgt, if_true, hIns, hV2, hOuts, hU2]
      simp [hser]
    · intro _
      refine ⟨?_, rfl⟩
      show s = MsgTx.serialize (MsgTx.mk version txIn txOut lt) ++ s6
      rw [hser, ecs, ecis, eIs, eos, eOs, eLs, ecic]
      simp [List.append_assoc]
    · intro hx
      rw [hextf] at hx
      cases hx
  · -- inputCount = 0
    have h0 : inputCount = 0 := by omega
    subst h0
    cases hV2 : readVarInt s2 with
    | none => simp [Deserialize, hU1, hV1, hV2] at h
    | some x3 =>
    obtain ⟨oc, cOc0, s3⟩ := x3
    obtain ⟨eoc0, eos0, _⟩ := readVarInt_some hV2
    by_cases hogt : oc > 0
    · -- Plain-zero-inputs branch
      cases hOuts : readTxOuts oc s3 with
      | none => simp [Deserialize, hU1, hV1, hV2, hogt, hOuts] at h
      | some x4 =>
      obtain ⟨txOut, cOuts, s4⟩ := x4
      cases hU2 : readU32 s4 with
      | none => simp [Deserialize, hU1, hV1, hV2, hogt, hOuts, hU2] at h
      | some x5 =>
      obtain ⟨lt, cLock, s5⟩ := x5
      simp only [Deserialize, hU1, hV1, hgt, if_false, hV2, hogt, if_true, hOuts, hU2,
        Option.some.injEq, Prod.mk.injEq] at h
      obtain ⟨hetx, hrest⟩ := h
      subst hetx; subst hrest
      obtain ⟨eOl, eOc, eOs, _⟩ := readTxOuts_some hOuts
      obtain ⟨eL, eLs, _⟩ := readU32_some hU2
      have hser : MsgTx.serialize (MsgTx.mk version [] txOut lt) =
          cv ++ writeVarInt 0 ++ writeVarInt oc ++ cOuts ++ cLock := by
        simp only [MsgTx.serialize]
        rw [ecv, eOl, eOc, eL]
        simp
      have hextf : isExtendedStream s = false := by
        simp only [isExtendedStream, hU1, hV1, hV2]
        simp [hogt]
      refine ⟨?_, ?_, ?_⟩
      · simp only [DeserializeTxID, hU1, hV1, hgt, if_false, hV2, hogt, if_true, hOuts, hU2]
        simp [hser]
      · intro _
        refine ⟨?_, rfl⟩
        show s = MsgTx.serialize (MsgTx.mk version [] txOut lt) ++ s5
        rw [hser, ecs, ecis, eos0, eOs, eLs, ecic, eoc0]
        simp [List.append_assoc]
      · intro hx
        rw [hextf] at hx
        cases hx
    · -- oc = 0
      have ho0 : oc = 0 := by omega
      subst ho0
      cases hU3 : readU32 s3 with
      | none => simp [Deserialize, hU1, hV1, hV2, hU3] at h
      | some x4 =>
      obtain ⟨lt, cLock, s4⟩ := x4
      obtain ⟨eL, eLs, elt⟩ := readU32_some hU3
      by_cases hne : lt = MarkerLockTime
      · -- Extended branch
        subst hne
        cases hV3 : readVarInt s4 with
        | none => simp [Deserialize, hU1, hV1, hV2, hU3, hV3] at h
        | some x5 =>
        obtain ⟨n2, cRic, s5⟩ := x5
        cases hP : readExtendedPairs n2 s5 with
        | none => simp [Deserialize, hU1, hV1, hV2, hU3, hV3, hP] at h
        | some x6 =>
        obtain ⟨ins, spent, s6⟩ := x6
        cases hV4 : readVarInt s6 with
        | none => simp [Deserialize, hU1, hV1, hV2, hU3, hV3, hP, hV4] at h
        | some x7 =>
        obtain ⟨oc2, cOc2, s7⟩ := x7
        cases hOuts : readTxOuts oc2 s7 with
        | none => simp [Deserialize, hU1, hV1, hV2, hU3, hV3, hP, hV4, hOuts] at h
        | some x8 =>
        obtain ⟨txOut, cOuts, s8⟩ := x8
        cases hU4 : readU32 s8 with
        | none => simp [Deserialize, hU1, hV1, hV2, hU3, hV3, hP, hV4, hOuts, hU4] at h
        | some x9 =>
        obtain ⟨lt2, cLock2, s9⟩ := x9
        simp only [Deserialize, hU1, hV1, hgt, hogt, if_false, hV2, hU3, hV3, hP, hV4,
          hOuts, hU4, Option.some.injEq, Prod.mk.injEq, ne_eq, eq_self_iff_true,
          not_true_eq_false] at h
        obtain ⟨hetx, hrest⟩ := h
        subst hetx; subst hrest
        obtain ⟨eRic, eRis, _⟩ := readVarInt_some hV3
        obtain ⟨ePl, ePo, ePid⟩ := readExtendedPairs_some hP
        obtain ⟨eoc2, eos2, _⟩ := readVarInt_some hV4
        obtain ⟨eOl, eOc, eOs, _⟩ := readTxOuts_some hOuts
        obtain ⟨eL2, eLs2, _⟩ := readU32_some hU4
        have hser : MsgTx.serialize (MsgTx.mk version ins txOut lt2) =
            cv ++ cRic ++ (ins.map TxIn.serialize).flatten ++ cOc2 ++ cOuts ++ cLock2 := by
          simp only [MsgTx.serialize]
          rw [ecv, ePl, eRic, eoc2, eOl, eOc, eL2]
        have hextt : isExtendedStream s = true := by
          simp only [isExtendedStream, hU1, hV1, hV2, hU3]
          simp
        refine ⟨?_, ?_, ?_⟩
        · simp only [DeserializeTxID, hU1, hV1, hgt, hogt, if_false, hV2, hU3, ne_eq,
            eq_self_iff_true, not_true_eq_false, hV3, ePid, hV4, hOuts, hU4]
          simp [hser]
        · intro hx
          rw [hextt] at hx
          cases hx
        · intro _
          show spent.length = ins.length
          rw [ePo, ePl]
      · -- Plain-empty branch
        simp only [Deserialize, hU1, hV1, hgt, hogt, if_false, hV2, hU3, ne_eq, hne,
          not_false_eq_true, if_true, Option.some.injEq, Prod.mk.injEq] at h
        obtain ⟨hetx, hrest⟩ := h
        subst hetx; subst hrest
        have hser : MsgTx.serialize (MsgTx.mk version [] [] lt) =
            cv ++ writeVarInt 0 ++ writeVarInt 0 ++ putU32 lt := by
          simp only [MsgTx.serialize]
          rw [ecv]
          simp
        have hextf : isExtendedStream s = false := by
          simp only [isExtendedStream, hU1, hV1, hV2, hU3]
          simp [hne]
        refine ⟨?_, ?_, ?_⟩
        · simp only [DeserializeTxID, hU1, hV1, hgt, hogt, if_false, hV2, hU3, ne_eq, hne,
            not_false_eq_true, if_true]
          simp [hser]
        · intro _
          refine ⟨?_, rfl⟩
          show s = MsgTx.serialize (MsgTx.mk version [] [] lt) ++ s4
          rw [hser, ecs, ecis, eos0, eLs, ecic, eoc0, eL]
          simp [List.append_assoc]
        · intro hx
          rw [hextf] at hx
          cases hx

theorem deserializeTxID_inv {s hb rest : List Byte}
    (h : DeserializeTxID s = some (hb, rest)) :
    ∃ etx, Deserialize s = some (etx, rest) := by
  cases hU1 : readU32 s with
  | none => simp [DeserializeTxID, hU1] at h
  | some x1 =>
  obtain ⟨version, cv, s1⟩ := x1
  cases hV1 : readVarInt s1 with
  | none => simp [DeserializeTxID, hU1, hV1] at h
  | some x2 =>
  obtain ⟨inputCount, cic, s2⟩ := x2
  by_cases hgt : inputCount > 0
  · cases hIns : readTxIns inputCount s2 with
    | none => simp [DeserializeTxID, hU1, hV1, hgt, hIns] at h
    | some x3 =>
    obtain ⟨txIn, cIns, s3⟩ := x3
    cases hV2 : readVarInt s3 with
    | none => simp [DeserializeTxID, hU1, hV1, hgt, hIns, hV2] at h
    | some x4 =>
    obtain ⟨oc, cOc, s4⟩ := x4
    cases hOuts : readTxOuts oc s4 with
    | none => simp [DeserializeTxID, hU1, hV1, hgt, hIns, hV2, hOuts] at h
    | some x5 =>
    obtain ⟨txOut, cOuts, s5⟩ := x5
    cases hU2 : readU32 s5 with
    | none => simp [DeserializeTxID, hU1, hV1, hgt, hIns, hV2, hOuts, hU2] at h
    | some x6 =>
    obtain ⟨lt, cLock, s6⟩ := x6
    simp only [DeserializeTxID, hU1, hV1, hgt, if_true, hIns, hV2, hOuts, hU2,
      Option.some.injEq, Prod.mk.injEq] at h
    exact ⟨⟨⟨version, txIn, txOut, lt⟩, []⟩,
      by simp only [Deserialize, hU1, hV1, hgt, if_true, hIns, hV2, hOuts, hU2, h.2]⟩
  · have h0 : inputCount = 0 := by omega
    subst h0
    cases hV2 : readVarInt s2 with
    | none => simp [DeserializeTxID, hU1, hV1, hV2] at h
    | some x3 =>
    obtain ⟨oc, cOc0, s3⟩ := x3
    by_cases hogt : oc > 0
    · cases hOuts : readTxOuts oc s3 with
      | none => simp [DeserializeTxID, hU1, hV1, hV2, hogt, hOuts] at h
      | some x4 =>
      obtain ⟨txOut, cOuts, s4⟩ := x4
      cases hU2 : readU32 s4 with
      | none => simp [DeserializeTxID, hU1, hV1, hV2, hogt, hOuts, hU2] at h
      | some x5 =>
      obtain ⟨lt, cLock, s5⟩ := x5
      simp only [DeserializeTxID, hU1, hV1, hgt, if_false, hV2, hogt, if_true, hOuts,
        hU2, Option.some.injEq, Prod.mk.injEq] at h
      exact ⟨⟨⟨version, [], txOut, lt⟩, []⟩,
        by simp only [Deserialize, hU1, hV1, hgt, if_false, hV2, hogt, if_true, hOuts,
          hU2, h.2]⟩
    · have ho0 : oc = 0 := by omega
      subst ho0
      cases hU3 : readU32 s3 with
      | none => simp [DeserializeTxID, hU1, hV1, hV2, hU3] at h
      | some x4 =>
      obtain ⟨lt, cLock, s4⟩ := x4
      by_cases hne : lt = MarkerLockTime
      · subst hne
        cases hV3 : readVarInt s4 with
        | none => simp [DeserializeTxID, hU1, hV1, hV2, hU3, hV3] at h
        | some x5 =>
        obtain ⟨n2, cRic, s5⟩ := x5
        cases hP : readTxIDExtendedPairs n2 s5 with
        | none => simp [DeserializeTxID, hU1, hV1, hV2, hU3, hV3, hP] at h
        | some x6 =>
        obtain ⟨hPairs, s6⟩ := x6
        cases hV4 : readVarInt s6 with
        | none => simp [DeserializeTxID, hU1, hV1, hV2, hU3, hV3, hP, hV4] at h
        | some x7 =>
        obtain ⟨oc2, cOc2, s7⟩ := x7
        cases hOuts : readTxOuts oc2 s7 with
        | none => simp [DeserializeTxID, hU1, hV1, hV2, hU3, hV3, hP, hV4, hOuts] at h
        | some x8 =>
        obtain ⟨txOut, cOuts, s8⟩ := x8
        cases hU4 : readU32 s8 with
        | none => simp [DeserializeTxID, hU1, hV1, hV2, hU3, hV3, hP, hV4, hOuts, hU4] at h
        | some x9 =>
        obtain ⟨lt2, cLock2, s9⟩ := x9
        simp only [DeserializeTxID, hU1, hV1, hgt, hogt, if_false, hV2, hU3, ne_eq,
          eq_self_iff_true, not_true_eq_false, hV3, hP, hV4, hOuts, hU4,
          Option.some.injEq, Prod.mk.injEq] at h
        obtain ⟨ins, spent, hE⟩ := readTxIDExtendedPairs_inv hP
        exact ⟨⟨⟨version, ins, txOut, lt2⟩, spent⟩,
          by simp only [Deserialize, hU1, hV1, hgt, hogt, if_false, hV2, hU3, ne_eq,
            eq_self_iff_true, not_true_eq_false, hV3, hE, hV4, hOuts, hU4, h.2]⟩
      · simp only [DeserializeTxID, hU1, hV1, hgt, hogt, if_false, hV2, hU3, ne_eq,
          hne, not_false_eq_true, if_true, Option.some.injEq, Prod.mk.injEq] at h
        exact ⟨⟨⟨version, [], [], lt⟩, []⟩,
          by simp only [Deserialize, hU1, hV1, hgt, hogt, if_false, hV2, hU3, ne_eq,
            hne, not_false_eq_true, if_true, h.2]⟩

theorem deserialize_append {s t : List Byte} {etx : ExpandedTx} {rest : List Byte}
    (h : Deserialize s = some (etx, rest)) :
    Deserialize (s ++ t) = some (etx, rest ++ t) := by
  cases hU1 : readU32 s with
  | none => simp [Deserialize, hU1] at h
  | some x1 =>
  obtain ⟨version, cv, s1⟩ := x1
  cases hV1 : readVarInt s1 with
  | none => simp [Deserialize, hU1, hV1] at h
  | some x2 =>
  obtain ⟨inputCount, cic, s2⟩ := x2
  by_cases hgt : inputCount > 0
  · cases hIns : readTxIns inputCount s2 with
    | none => simp [Deserialize, hU1, hV1, hgt, hIns] at h
    | some x3 =>
    obtain ⟨txIn, cIns, s3⟩ := x3
    cases hV2 : readVarInt s3 with
    | none => simp [Deserialize, hU1, hV1, hgt, hIns, hV2] at h
    | some x4 =>
    obtain ⟨oc, cOc, s4⟩ := x4
    cases hOuts : readTxOuts oc s4 with
    | none => simp [Deserialize, hU1, hV1, hgt, hIns, hV2, hOuts] at h
    | some x5 =>
    obtain ⟨txOut, cOuts, s5⟩ := x5
    cases hU2 : readU32 s5 with
    | none => simp [Deserialize, hU1, hV1, hgt, hIns, hV2, hOuts, hU2] at h
    | some x6 =>
    obtain ⟨lt, cLock, s6⟩ := x6
    simp only [Deserialize, hU1, hV1, hgt, if_true, hIns, hV2, hOuts, hU2,
      Option.some.injEq, Prod.mk.injEq] at h
    simp only [Deserialize, readU32_append hU1, readVarInt_append hV1, hgt, if_true,
      readTxIns_append hIns, readVarInt_append hV2, readTxOuts_append hOuts,
      readU32_append hU2, h.1, h.2]
  · have h0 : inputCount = 0 := by omega
    subst h0
    cases hV2 : readVarInt s2 with
    | none => simp [Deserialize, hU1, hV1, hV2] at h
    | some x3 =>
    obtain ⟨oc, cOc0, s3⟩ := x3
    by_cases hogt : oc > 0
    · cases hOuts : readTxOuts oc s3 with
      | none => simp [Deserialize, hU1, hV1, hV2, hogt, hOuts] at h
      | some x4 =>
      obtain ⟨txOut, cOuts, s4⟩ := x4
      cases hU2 : readU32 s4 with
      | none => simp [Deserialize, hU1, hV1, hV2, hogt, hOuts, hU2] at h
      | some x5 =>
      obtain ⟨lt, cLock, s5⟩ := x5
      simp only [Deserialize, hU1, hV1, hgt, if_false, hV2, hogt, if_true, hOuts, hU2,
        Option.some.injEq, Prod.mk.injEq] at h
      simp only [Deserialize, readU32_append hU1, readVarInt_append hV1, hgt, if_false,
        readVarInt_append hV2, hogt, if_true, readTxOuts_append hOuts,
        readU32_append hU2, h.1, h.2]
    · have ho0 : oc = 0 := by omega
      subst ho0
      cases hU3 : readU32 s3 with
      | none => simp [Deserialize, hU1, hV1, hV2, hU3] at h
      | some x4 =>
      obtain ⟨lt, cLock, s4⟩ := x4
      by_cases hne : lt = MarkerLockTime
      · subst hne
        cases hV3 : readVarInt s4 with
        | none => simp [Deserialize, hU1, hV1, hV2, hU3, hV3] at h
        | some x5 =>
        obtain ⟨n2, cRic, s5⟩ := x5
        cases hP : readExtendedPairs n2 s5 with
        | none => simp [Deserialize, hU1, hV1, hV2, hU3, hV3, hP] at h
        | some x6 =>
        obtain ⟨ins, spent, s6⟩ := x6
        cases hV4 : readVarInt s6 with
        | none => simp [Deserialize, hU1, hV1, hV2, hU3, hV3, hP, hV4] at h
        | some x7 =>
        obtain ⟨oc2, cOc2, s7⟩ := x7
        cases hOuts : readTxOuts oc2 s7 with
        | none => simp [Deserialize, hU1, hV1, hV2, hU3, hV3, hP, hV4, hOuts] at h
        | some x8 =>
        obtain ⟨txOut, cOuts, s8⟩ := x8
        cases hU4 : readU32 s8 with
        | none => simp [Deserialize, hU1, hV1, hV2, hU3, hV3, hP, hV4, hOuts, hU4] at h
        | some x9 =>
        obtain ⟨lt2, cLock2, s9⟩ := x9
        simp only [Deserialize, hU1, hV1, hgt, hogt, if_false, hV2, hU3, ne_eq,
          eq_self_iff_true, not_true_eq_false, hV3, hP, hV4, hOuts, hU4,
          Option.some.injEq, Prod.mk.injEq] at h
        simp only [Deserialize, readU32_append hU1, readVarInt_append hV1, hgt, hogt,
          if_false, readVarInt_append hV2, readU32_append hU3, ne_eq,
          eq_self_iff_true, not_true_eq_false, readVarInt_append hV3,
          readExtendedPairs_append hP, readVarInt_append hV4,
          readTxOuts_append hOuts, readU32_append hU4, h.1, h.2]
      · simp only [Deserialize, hU1, hV1, hgt, hogt, if_false, hV2, hU3, ne_eq, hne,
          not_false_eq_true, if_true, Option.some.injEq, Prod.mk.injEq] at h
        simp only [Deserialize, readU32_append hU1, readVarInt_append hV1, hgt, hogt,
          if_false, readVarInt_append hV2, readU32_append hU3, ne_eq, hne,
          not_false_eq_true, if_true, h.1, h.2]

/-! ### Encoder-side helpers -/

theorem readVarInt_zero (t : List Byte) :
    readVarInt (byte 0 :: t) = some (0, [byte 0], t) := by
  simp [readVarInt, show ((byte 0 : Byte).val) = 0 from rfl]

theorem readU32_marker (t : List Byte) :
    readU32 (byte 0 :: byte 0 :: byte 0 :: byte 239 :: t) =
      some (MarkerLockTime, [byte 0, byte 0, byte 0, byte 239], t) := rfl

theorem readU32_put_nil {n : Nat} (h : n < 4294967296) :
    readU32 (putU32 n) = some (n, putU32 n, []) := by
  simpa using readU32_put h []

theorem writeVarInt_zero : writeVarInt 0 = [byte 0] := rfl

theorem serialize_eq {tx : TransactionWithOutputs} {outs : List TxOut}
    (hlen : tx.msgTx.txIn.length = outs.length)
    (hres : ∀ j, j < tx.msgTx.txIn.length → tx.inputOutput j = outs[j]?)
    (hcb : ∀ i ∈ tx.msgTx.txIn, i.isCoinbase = false) :
    Serialize tx = some (putU32 tx.msgTx.version ++
      (if tx.msgTx.txIn.length > 0 then Marker else []) ++
      writeVarInt tx.msgTx.txIn.length ++
      (List.zipWith serializeExtendedInput tx.msgTx.txIn outs).flatten ++
      writeVarInt tx.msgTx.txOut.length ++
      (tx.msgTx.txOut.map TxOut.serialize).flatten ++
      putU32 tx.msgTx.lockTime) := by
  have hsi := @serializeInputs_eq tx.msgTx.txIn outs 0 tx.inputOutput hlen
    (by intro j hj; rw [Nat.zero_add]; exact hres j hj) hcb
  simp only [Serialize, hsi]

/-- C1 (amended): for a transaction whose fields are in range, whose spent
outputs are all resolvable, with no coinbase input, and which is not the
0-input/0-output/lockTime-equal-to-marker collision, decoding the bytes
produced by `Serialize` consumes them entirely and yields a transaction with
the same identifier preimage (hence the same double-SHA256 identifier), and,
when there is at least one input, spent outputs equal to the resolver outputs
in input order. -/
theorem serialize_deserialize_identifier
    {tx : TransactionWithOutputs} {outs : List TxOut}
    (hwf : tx.msgTx.wf)
    (hlen : tx.msgTx.txIn.length = outs.length)
    (hres : ∀ j, j < tx.msgTx.txIn.length → tx.inputOutput j = outs[j]?)
    (hwo : ∀ o ∈ outs, o.wf)
    (hcb : ∀ i ∈ tx.msgTx.txIn, i.isCoinbase = false)
    (hcol : ¬(tx.msgTx.txIn = [] ∧ tx.msgTx.txOut = [] ∧
      tx.msgTx.lockTime = MarkerLockTime)) :
    ∃ b etx, Serialize tx = some b ∧ Deserialize b = some (etx, []) ∧
      MsgTx.serialize etx.tx = MsgTx.serialize tx.msgTx ∧
      (0 < tx.msgTx.txIn.length →
        etx.spentOutputs = outs.map (fun o => Output.mk o.value o.lockingScript)) := by
  obtain ⟨⟨mv, mi, mo, ml⟩, resolver⟩ := tx
  obtain ⟨hv, hlock, hnlen, hmlen, hwi, hwo2⟩ := hwf
  have hb := serialize_eq hlen hres hcb
  by_cases hn : mi.length > 0
  · -- at least one input: the encoding carries the marker and is extended
    refine ⟨_, ⟨⟨mv, mi, mo, ml⟩, outs.map (fun o => Output.mk o.value o.lockingScript)⟩,
      hb, ?_, rfl, fun _ => rfl⟩
    have hb2 : (putU32 mv ++ (if mi.length > 0 then Marker else []) ++
        writeVarInt mi.length ++
        (List.zipWith serializeExtendedInput mi outs).flatten ++
        writeVarInt mo.length ++ (mo.map TxOut.serialize).flatten ++ putU32 ml) =
        putU32 mv ++ (byte 0 :: byte 0 :: byte 0 :: byte 0 :: byte 0 :: byte 239 ::
          (writeVarInt mi.length ++
          ((List.zipWith serializeExtendedInput mi outs).flatten ++
          (writeVarInt mo.length ++
          ((mo.map TxOut.serialize).flatten ++ putU32 ml))))) := by
      rw [if_pos hn]
      simp [Marker, List.append_assoc]
    rw [hb2]
    simp only [Deserialize, readU32_put hv, readVarInt_zero, readU32_marker,
      readVarInt_write hnlen, readExtendedPairs_serialize hlen hwi hwo,
      readVarInt_write hmlen, readTxOuts_flatten hwo2, readU32_put_nil hlock]
    simp
  · -- no inputs: the encoding is the plain format
    have hni : mi = [] := List.length_eq_zero.mp (by omega)
    subst hni
    by_cases hm : mo.length > 0
    · refine ⟨_, ⟨⟨mv, [], mo, ml⟩, []⟩, hb, ?_, rfl, fun hc => absurd hc (by simp)⟩
      have hb2 : (putU32 mv ++ (if List.length ([] : List TxIn) > 0 then Marker else []) ++
          writeVarInt (List.length ([] : List TxIn)) ++
          (List.zipWith serializeExtendedInput [] outs).flatten ++
          writeVarInt mo.length ++ (mo.map TxOut.serialize).flatten ++ putU32 ml) =
          putU32 mv ++ (byte 0 ::
            (writeVarInt mo.length ++
            ((mo.map TxOut.serialize).flatten ++ putU32 ml))) := by
        simp [writeVarInt_zero, List.append_assoc]
      rw [hb2]
      simp only [Deserialize, readU32_put hv, readVarInt_zero,
        readVarInt_write hmlen, hm, if_true, readTxOuts_flatten hwo2,
        readU32_put_nil hlock]
      simp
    · have hmo : mo = [] := List.length_eq_zero.mp (by omega)
      subst hmo
      have hlneq : ml ≠ MarkerLockTime := fun he => hcol ⟨rfl, rfl, he⟩
      refine ⟨_, ⟨⟨mv, [], [], ml⟩, []⟩, hb, ?_, rfl, fun hc => absurd hc (by simp)⟩
      have hb2 : (putU32 mv ++ (if List.length ([] : List TxIn) > 0 then Marker else []) ++
          writeVarInt (List.length ([] : List TxIn)) ++
          (List.zipWith serializeExtendedInput [] outs).flatten ++
          writeVarInt (List.length ([] : List TxOut)) ++
          ((List.map TxOut.serialize []).flatten) ++ putU32 ml) =
          putU32 mv ++ (byte 0 :: byte 0 :: putU32 ml) := by
        simp [writeVarInt_zero, List.append_assoc]
      rw [hb2]
      simp only [Deserialize, readU32_put hv, readVarInt_zero, readU32_put_nil hlock]
      simp [hlneq]

/-! ### Concrete instances used by witnesses and counterexamples -/

/-! ### Claim theorems -/

/-- C1 witness: the amended round trip at a concrete one-input one-output
transaction. -/
theorem serialize_deserialize_identifier_witness :
    ∃ b etx, Serialize sampleTx = some b ∧ Deserialize b = some (etx, []) ∧
      MsgTx.serialize etx.tx = MsgTx.serialize sampleTx.msgTx ∧
      (0 < sampleTx.msgTx.txIn.length →
        etx.spentOutputs = [(⟨10000, [byte 82]⟩ : TxOut)].map
          (fun o => Output.mk o.value o.lockingScript)) :=
  serialize_deserialize_identifier (by decide) (by decide)
    (by intro j hj
        have hj0 : j = 0 := by
          have : j < 1 := hj
          omega
        subst hj0
        rfl)
    (by decide) (by decide) (by decide)

/-- C1 counterexample: for the coinbase transaction `coinbaseTx` all spent
outputs are resolvable, `Serialize` succeeds, `Deserialize` of the produced
bytes succeeds, yet the decoded transaction's identifier preimage differs from
the original's (its lock time is misparsed as 0 instead of 7) and the decoded
spent outputs differ from the resolver's outputs, refuting the claim as
stated. -/
theorem serialize_deserialize_coinbase_cex :
    ((Serialize coinbaseTx).bind Deserialize).isSome = true ∧
      ((Serialize coinbaseTx).bind Deserialize).map
          (fun p => MsgTx.serialize p.1.tx) ≠
        some (MsgTx.serialize coinbaseTx.msgTx) ∧
      ((Serialize coinbaseTx).bind Deserialize).map (fun p => p.1.spentOutputs) ≠
        some [Output.mk 5 []] := by decide

/-- C2 (code bug): for the single coinbase input of `coinbaseTx`, `Serialize`
writes two extended input records in succession — one with the synthetic
zero-valued output, then one with the resolver's output — instead of exactly
one. -/
theorem coinbase_double_extended_record :
    Serialize coinbaseTx =
      some (putU32 1 ++ Marker ++ writeVarInt 1 ++
        (serializeExtendedInput coinbaseInput ⟨0, []⟩ ++
          (serializeExtendedInput coinbaseInput ⟨5, []⟩ ++ []) ++ []) ++
        writeVarInt 0 ++ (List.map TxOut.serialize []).flatten ++ putU32 7) := by
  decide

/-- C3: whenever the decoder parses a stream, the identifier extractor on the
same stream succeeds, consumes the same bytes, and its digest preimage is
exactly the plain-format serialization of the decoded transaction — so the
identifier (double SHA-256 of that preimage) is the identifier of the decoded
transaction whether the stream was plain or extended. -/
theorem txid_matches_plain_serialization {s : List Byte} {etx : ExpandedTx}
    {rest : List Byte} (h : Deserialize s = some (etx, rest)) :
    DeserializeTxID s = some (MsgTx.serialize etx.tx, rest) :=
  (deserialize_characterization h).1

/-- C3 witness at a concrete plain-empty stream. -/
theorem txid_matches_plain_serialization_witness :
    Deserialize (bytes [1, 0, 0, 0, 0, 0, 57, 48, 0, 0]) =
        some (⟨⟨1, [], [], 12345⟩, []⟩, []) ∧
      DeserializeTxID (bytes [1, 0, 0, 0, 0, 0, 57, 48, 0, 0]) =
        some (MsgTx.serialize (MsgTx.mk 1 [] [] 12345), []) :=
  ⟨by decide, @txid_matches_plain_serialization (bytes [1, 0, 0, 0, 0, 0, 57, 48, 0, 0]) ⟨⟨1, [], [], 12345⟩, []⟩ [] (by decide)⟩

/-- C4: a stream whose first two varints are zero and whose following 4
little-endian bytes differ from `0xEF000000` decodes through the Plain-empty
branch: zero inputs, zero outputs, that lock time, empty spent outputs, and
exactly those ten bytes consumed. -/
theorem deserialize_plain_empty_branch
    (v0 v1 v2 v3 l0 l1 l2 l3 : Byte) (t : List Byte)
    (hne : l0.val + 256 * l1.val + 65536 * l2.val + 16777216 * l3.val ≠
      MarkerLockTime) :
    Deserialize (v0 :: v1 :: v2 :: v3 :: byte 0 :: byte 0 ::
        l0 :: l1 :: l2 :: l3 :: t) =
      some (⟨⟨v0.val + 256 * v1.val + 65536 * v2.val + 16777216 * v3.val, [], [],
        l0.val + 256 * l1.val + 65536 * l2.val + 16777216 * l3.val⟩, []⟩, t) := by
  simp [Deserialize, readU32, readVarInt_zero, hne]

/-- C4 witness at lock time 12345. -/
theorem deserialize_plain_empty_branch_witness :
    ((byte 57).val + 256 * (byte 48).val + 65536 * (byte 0).val +
        16777216 * (byte 0).val ≠ MarkerLockTime) ∧
      Deserialize (byte 1 :: byte 0 :: byte 0 :: byte 0 :: byte 0 :: byte 0 ::
          byte 57 :: byte 48 :: byte 0 :: byte 0 :: []) =
        some (⟨⟨(byte 1).val + 256 * (byte 0).val + 65536 * (byte 0).val +
            16777216 * (byte 0).val, [], [],
          (byte 57).val + 256 * (byte 48).val + 65536 * (byte 0).val +
            16777216 * (byte 0).val⟩, []⟩, []) :=
  ⟨by decide, deserialize_plain_empty_branch (byte 1) (byte 0) (byte 0) (byte 0)
    (byte 57) (byte 48) (byte 0) (byte 0) [] (by decide)⟩

/-- C5: every decoded `ExpandedTx` has `spentOutputs` either empty or of
length exactly `len(inputs)`; the three plain branches return no spent-output
data and the Extended branch returns exactly one spent output per decoded
input. -/
theorem spent_outputs_invariant {s : List Byte} {etx : ExpandedTx}
    {rest : List Byte} (h : Deserialize s = some (etx, rest)) :
    (etx.spentOutputs = [] ∨ etx.spentOutputs.length = etx.tx.txIn.length) ∧
      (isExtendedStream s = false → etx.spentOutputs = []) ∧
      (isExtendedStream s = true →
        etx.spentOutputs.length = etx.tx.txIn.length) := by
  obtain ⟨_, h2, h3⟩ := deserialize_characterization h
  refine ⟨?_, fun hf => (h2 hf).2, h3⟩
  cases hx : isExtendedStream s with
  | false => exact Or.inl (h2 hx).2
  | true => exact Or.inr (h3 hx)

/-- C5 witness at a concrete plain-zero-inputs stream with one output. -/
theorem spent_outputs_invariant_witness :
    Deserialize (bytes [1, 0, 0, 0, 0, 1, 5, 0, 0, 0, 0, 0, 0, 0, 0, 7, 0, 0, 0]) =
        some (⟨⟨1, [], [⟨5, []⟩], 7⟩, []⟩, []) ∧
      (((⟨⟨1, [], [⟨5, []⟩], 7⟩, []⟩ : ExpandedTx).spentOutputs = [] ∨
        (⟨⟨1, [], [⟨5, []⟩], 7⟩, []⟩ : ExpandedTx).spentOutputs.length =
          (⟨⟨1, [], [⟨5, []⟩], 7⟩, []⟩ : ExpandedTx).tx.txIn.length) ∧
      (isExtendedStream (bytes [1, 0, 0, 0, 0, 1, 5, 0, 0, 0, 0, 0, 0, 0, 0, 7, 0, 0, 0]) = false →
        (⟨⟨1, [], [⟨5, []⟩], 7⟩, []⟩ : ExpandedTx).spentOutputs = []) ∧
      (isExtendedStream (bytes [1, 0, 0, 0, 0, 1, 5, 0, 0, 0, 0, 0, 0, 0, 0, 7, 0, 0, 0]) = true →
        (⟨⟨1, [], [⟨5, []⟩], 7⟩, []⟩ : ExpandedTx).spentOutputs.length =
          (⟨⟨1, [], [⟨5, []⟩], 7⟩, []⟩ : ExpandedTx).tx.txIn.length)) :=
  ⟨by decide, @spent_outputs_invariant (bytes [1, 0, 0, 0, 0, 1, 5, 0, 0, 0, 0, 0, 0, 0, 0, 7, 0, 0, 0]) ⟨⟨1, [], [⟨5, []⟩], 7⟩, []⟩ [] (by decide)⟩

/-- C6: in the three non-extended branches of the identifier extractor, the
digest preimage is exactly the bytes consumed from the stream: the stream is
the hashed bytes followed by the unconsumed rest. -/
theorem txid_plain_branches_hash_consumed {s hashed rest : List Byte}
    (h : DeserializeTxID s = some (hashed, rest))
    (hx : isExtendedStream s = false) :
    s = hashed ++ rest := by
  obtain ⟨etx, hd⟩ := deserializeTxID_inv h
  obtain ⟨h1, h2, _⟩ := deserialize_characterization hd
  have he : hashed = MsgTx.serialize etx.tx := by
    simpa using h.symm.trans h1
  rw [he]
  exact (h2 hx).1

/-- C6 witness at a concrete plain-empty stream. -/
theorem txid_plain_branches_hash_consumed_witness :
    DeserializeTxID (bytes [2, 0, 0, 0, 0, 0, 0, 0, 0, 0]) =
        some (bytes [2, 0, 0, 0, 0, 0, 0, 0, 0, 0], []) ∧
      isExtendedStream (bytes [2, 0, 0, 0, 0, 0, 0, 0, 0, 0]) = false ∧
      bytes [2, 0, 0, 0, 0, 0, 0, 0, 0, 0] =
        bytes [2, 0, 0, 0, 0, 0, 0, 0, 0, 0] ++ [] :=
  ⟨by decide, by decide,
    @txid_plain_branches_hash_consumed (bytes [2, 0, 0, 0, 0, 0, 0, 0, 0, 0])
      (bytes [2, 0, 0, 0, 0, 0, 0, 0, 0, 0]) [] (by decide) (by decide)⟩

/-- C7: in the Extended branch, the identifier extractor's digest preimage is
the version, the real input count varint, the input records (without their
paired spent-output records), the real output count varint, the output
records, and the real lock time, in that order — the marker bytes, the two
disambiguation varints, and the paired spent-output records are excluded. -/
theorem txid_extended_branch_hashed_bytes {s : List Byte} {etx : ExpandedTx}
    {rest : List Byte} (h : Deserialize s = some (etx, rest))
    (hx : isExtendedStream s = true) :
    DeserializeTxID s =
      some (putU32 etx.tx.version ++ writeVarInt etx.tx.txIn.length ++
        (etx.tx.txIn.map TxIn.serialize).flatten ++
        writeVarInt etx.tx.txOut.length ++
        (etx.tx.txOut.map TxOut.serialize).flatten ++
        putU32 etx.tx.lockTime, rest) :=
  (deserialize_characterization h).1

/-- C7 witness at a concrete extended stream with zero real inputs. -/
theorem txid_extended_branch_hashed_bytes_witness :
    Deserialize (bytes [1, 0, 0, 0, 0, 0, 0, 0, 0, 239, 0, 0, 9, 0, 0, 0]) =
        some (⟨⟨1, [], [], 9⟩, []⟩, []) ∧
      isExtendedStream (bytes [1, 0, 0, 0, 0, 0, 0, 0, 0, 239, 0, 0, 9, 0, 0, 0]) = true ∧
      DeserializeTxID (bytes [1, 0, 0, 0, 0, 0, 0, 0, 0, 239, 0, 0, 9, 0, 0, 0]) =
        some (putU32 1 ++ writeVarInt 0 ++ [] ++ writeVarInt 0 ++ [] ++ putU32 9, []) :=
  ⟨by decide, by decide,
    @txid_extended_branch_hashed_bytes
      (bytes [1, 0, 0, 0, 0, 0, 0, 0, 0, 239, 0, 0, 9, 0, 0, 0])
      ⟨⟨1, [], [], 9⟩, []⟩ [] (by decide) (by decide)⟩

/-- C8: decoding consumes exactly one encoded transaction and leaves the rest
of the stream: two transactions encoded back to back decode via two
sequential calls into the two transactions with no gap or overlap. -/
theorem deserialize_segments_back_to_back {b1 b2 : List Byte}
    {e1 e2 : ExpandedTx}
    (h1 : Deserialize b1 = some (e1, []))
    (h2 : Deserialize b2 = some (e2, [])) :
    Deserialize (b1 ++ b2) = some (e1, b2) ∧ Deserialize b2 = some (e2, []) :=
  ⟨by simpa using deserialize_append h1, h2⟩

/-- C8 witness at two concrete plain-empty streams. -/
theorem deserialize_segments_back_to_back_witness :
    Deserialize (bytes [1, 0, 0, 0, 0, 0, 0, 0, 0, 0]) =
        some (⟨⟨1, [], [], 0⟩, []⟩, []) ∧
      Deserialize (bytes [2, 0, 0, 0, 0, 0, 1, 0, 0, 0]) =
        some (⟨⟨2, [], [], 1⟩, []⟩, []) ∧
      Deserialize (bytes [1, 0, 0, 0, 0, 0, 0, 0, 0, 0] ++
          bytes [2, 0, 0, 0, 0, 0, 1, 0, 0, 0]) =
        some (⟨⟨1, [], [], 0⟩, []⟩, bytes [2, 0, 0, 0, 0, 0, 1, 0, 0, 0]) :=
  ⟨by decide, by decide,
    (@deserialize_segments_back_to_back (bytes [1, 0, 0, 0, 0, 0, 0, 0, 0, 0])
      (bytes [2, 0, 0, 0, 0, 0, 1, 0, 0, 0]) ⟨⟨1, [], [], 0⟩, []⟩ ⟨⟨2, [], [], 1⟩, []⟩
      (by decide) (by decide)).1⟩

/-- C9: if the resolver cannot supply a spent output for some non-coinbase
input, `Serialize` fails with an error and produces no encoding. -/
theorem serialize_missing_spent_output {tx : TransactionWithOutputs} {j : Nat}
    (hj : j < tx.msgTx.txIn.length)
    (hcb : (tx.msgTx.txIn.get ⟨j, hj⟩).isCoinbase = false)
    (hnone : tx.inputOutput j = none) :
    Serialize tx = none := by
  cases hs : serializeInputs tx.inputOutput 0 tx.msgTx.txIn with
  | none => simp [Serialize, hs]
  | some b =>
    have hsome := serializeInputs_resolves hs j hj
    rw [Nat.zero_add, hnone] at hsome
    simp at hsome

/-- C9 witness: encoding the unresolvable transaction aborts. -/
theorem serialize_missing_spent_output_witness :
    unresolvableTx.inputOutput 0 = none ∧ Serialize unresolvableTx = none :=
  ⟨rfl, @serialize_missing_spent_output unresolvableTx 0 (by decide) (by decide) rfl⟩

theorem readU32_cons (b0 b1 b2 b3 : Byte) (t : List Byte) :
    readU32 (b0 :: b1 :: b2 :: b3 :: t) =
      some (b0.val + 256 * b1.val + 65536 * b2.val + 16777216 * b3.val,
        [b0, b1, b2, b3], t) := rfl

theorem writeVarInt_pos_head {n : Nat} (hn : 0 < n) :
    ∃ w ws, writeVarInt n = w :: ws ∧ w.val ≠ 0 := by
  rw [writeVarInt]
  split_ifs with h1 h2 h3
  · exact ⟨byte n, [], rfl, by rw [byte_val_of_lt (by omega)]; omega⟩
  · exact ⟨byte 253, putU16 n, rfl, by decide⟩
  · exact ⟨byte 254, putU32 n, rfl, by decide⟩
  · exact ⟨byte 255, putU64 n, rfl, by decide⟩

/-- C10: the decoder's Extended branch accepts a real input count of zero —
any stream made of a version, two zero varints, the marker lock-time bytes, a
zero varint, an output section and a lock time decodes to an extended
transaction with no inputs and empty spent outputs — while `Serialize` never
produces a stream of that form, because it writes the marker only when the
input count is positive (and then the following varint is the positive count,
whose first byte is nonzero). -/
theorem deserialize_extended_zero_inputs :
    (∀ (v0 v1 v2 v3 : Byte) (mo : List TxOut) (l0 l1 l2 l3 : Byte) (t : List Byte),
      mo.length < 18446744073709551616 → (∀ o ∈ mo, o.wf) →
      Deserialize (v0 :: v1 :: v2 :: v3 :: byte 0 :: byte 0 :: byte 0 :: byte 0 ::
          byte 0 :: byte 239 :: byte 0 ::
          (writeVarInt mo.length ++ ((mo.map TxOut.serialize).flatten ++
            (l0 :: l1 :: l2 :: l3 :: t)))) =
        some (⟨⟨v0.val + 256 * v1.val + 65536 * v2.val + 16777216 * v3.val, [], mo,
          l0.val + 256 * l1.val + 65536 * l2.val + 16777216 * l3.val⟩, []⟩, t)) ∧
    (∀ (tx : TransactionWithOutputs) (b : List Byte), Serialize tx = some b →
      ∀ (v0 v1 v2 v3 : Byte) (q : List Byte),
        b ≠ v0 :: v1 :: v2 :: v3 :: byte 0 :: byte 0 :: byte 0 :: byte 0 :: byte 0 ::
          byte 239 :: byte 0 :: q) := by
  constructor
  · intro v0 v1 v2 v3 mo l0 l1 l2 l3 t h64 hwo
    simp [Deserialize, readU32_cons, readVarInt_zero, readExtendedPairs,
      readVarInt_write h64, readTxOuts_flatten hwo, MarkerLockTime,
      show ((byte 0 : Byte)).val = 0 from rfl,
      show ((byte 239 : Byte)).val = 239 from rfl]
  · intro tx b hb v0 v1 v2 v3 q heq
    obtain ⟨⟨mv, mi, mo, ml⟩, resolver⟩ := tx
    cases hs : serializeInputs resolver 0 mi with
    | none => simp [Serialize, hs] at hb
    | some ins =>
    simp only [Serialize, hs, Option.some.injEq] at hb
    subst hb
    by_cases hn : mi.length > 0
    · rw [if_pos hn] at heq
      obtain ⟨w, ws, hw, hwne⟩ := writeVarInt_pos_head hn
      rw [hw] at heq
      simp only [putU32, Marker, List.cons_append, List.nil_append,
        List.append_assoc, List.cons.injEq] at heq
      obtain ⟨_, _, _, _, _, _, _, _, _, _, ew, _⟩ := heq
      exact hwne (by rw [ew]; rfl)
    · have hmi : mi = [] := List.length_eq_zero.mp (by omega)
      subst hmi
      simp only [serializeInputs, Option.some.injEq] at hs
      subst hs
      by_cases hm2 : mo.length > 0
      · obtain ⟨w, ws, hw, hwne⟩ := writeVarInt_pos_head hm2
        rw [if_neg hn, hw] at heq
        simp only [putU32, writeVarInt_zero, List.cons_append, List.nil_append,
          List.append_assoc, List.cons.injEq, List.zipWith_nil_left,
          List.flatten_nil, List.length_nil] at heq
        obtain ⟨_, _, _, _, _, ew, _⟩ := heq
        exact hwne (by rw [ew]; rfl)
      · have hmo : mo = [] := List.length_eq_zero.mp (by omega)
        subst hmo
        rw [if_neg hn] at heq
        simp only [putU32, writeVarInt_zero, List.cons_append, List.nil_append,
          List.append_assoc, List.cons.injEq, List.zipWith_nil_left,
          List.flatten_nil, List.length_nil, List.map_nil] at heq
        obtain ⟨_, _, _, _, _, _, _, _, _, _, hnil⟩ := heq
        exact absurd hnil (by simp)

/-- C10 witness: the extended-zero-inputs acceptance at a concrete stream with
one output, and the never-produced fact at the concrete `sampleTx` encoding. -/
theorem deserialize_extended_zero_inputs_witness :
    Deserialize (byte 1 :: byte 0 :: byte 0 :: byte 0 :: byte 0 :: byte 0 :: byte 0 ::
        byte 0 :: byte 0 :: byte 239 :: byte 0 ::
        (writeVarInt ([(⟨5, []⟩ : TxOut)]).length ++
          (([(⟨5, []⟩ : TxOut)].map TxOut.serialize).flatten ++
          (byte 9 :: byte 0 :: byte 0 :: byte 0 :: [])))) =
      some (⟨⟨(byte 1).val + 256 * (byte 0).val + 65536 * (byte 0).val +
          16777216 * (byte 0).val, [], [⟨5, []⟩],
        (byte 9).val + 256 * (byte 0).val + 65536 * (byte 0).val +
          16777216 * (byte 0).val⟩, []⟩, []) :=
  deserialize_extended_zero_inputs.1 (byte 1) (byte 0) (byte 0) (byte 0)
    [⟨5, []⟩] (byte 9) (byte 0) (byte 0) (byte 0) [] (by decide) (by decide)

end Tef
